import Mathlib

/-!
Shallow embedding of the vtzero geometry decoder
(`src/include/vtzero/geometry.hpp`): the command-stream decoder
(`detail::extended_geometry_decoder`), the geometric-attribute parser
(`detail::geometric_attribute` / `detail::geometric_attribute_collection`)
and the three geometry-kind drivers (`decode_point`, `decode_linestring`,
`decode_polygon`).

Modelling conventions: machine integers are `Nat` (unsigned) and `Int`
(signed); the input iterators are `List`s consumed from the front;
exceptions are `Except Err`; the templated visitor (`TGeomHandler`) is
modelled by a trace of `Event`s together with a coordinate conversion
hook `conv` (the handler's `convert`).  The `while` loops of the drivers
become structural recursion: the inner per-point loops recurse on the
remaining repeat count (which the C++ loop condition `count() > 0` tests
and `next_point` decrements), and the outer per-sub-geometry loops
recurse on a fuel that the drivers instantiate with the geometry-stream
length (every loop iteration consumes at least one geometry integer, so
this fuel is never exhausted; the `Err.outOfFuel` branch is unreachable
from the public entry points).
-/

set_option maxHeartbeats 1000000

namespace Vtzero

/-- `vtzero::unscaled_point` (geometry.hpp lines 77-98): raw accumulated
cursor position, `x`/`y` the 32-bit planar coordinates and `z` the
64-bit elevation, all defaulting to 0. -/
structure UnscaledPoint where
  x : Int
  y : Int
  z : Int
deriving DecidableEq, Repr

/-- Modelled from the spec: `protozero::decode_zigzag32` (protozero is
not part of this repository; the spec glossary defines the standard
zigzag mapping of a signed delta: 0,-1,1,-2,2,... for 0,1,2,3,4,...). -/
def decode_zigzag32 (n : Nat) : Int :=
  if n % 2 = 0 then Int.ofNat (n / 2) else -Int.ofNat ((n + 1) / 2)

/-- Modelled from the spec: `protozero::decode_zigzag64`, the same
zigzag mapping on 64-bit values. -/
def decode_zigzag64 (n : Nat) : Int :=
  if n % 2 = 0 then Int.ofNat (n / 2) else -Int.ofNat ((n + 1) / 2)

/-- Modelled from the spec: `detail::get_command_id`
(geometry_basics.hpp is not among the sources; spec section 3: a command
word packs the command id in the low 3 bits). -/
def get_command_id (c : Nat) : Nat := c % 8

/-- Modelled from the spec: `detail::get_command_count`
(geometry_basics.hpp is not among the sources; spec section 3: the
repeat count is the remaining high bits of the command word). -/
def get_command_count (c : Nat) : Nat := c / 8

/-- `vtzero::CommandId` with its wire encoding MoveTo=1, LineTo=2,
ClosePath=7 (spec section 3). -/
inductive CommandId where
  | MOVE_TO
  | LINE_TO
  | CLOSE_PATH
deriving DecidableEq, Repr

/-- Numeric value of a command id. -/
def CommandId.toNat : CommandId → Nat
  | .MOVE_TO => 1
  | .LINE_TO => 2
  | .CLOSE_PATH => 7

/-- `vtzero::ring_type`. -/
inductive RingType where
  | outer
  | inner
  | invalid
deriving DecidableEq, Repr

/-- The two exception kinds thrown by the decoder
(`format_exception` and `geometry_exception`), plus the modelling
artefacts: `assertFail` for a `vtzero_assert` precondition violation and
`outOfFuel` for the unreachable fuel-exhaustion branch of the driver
loops. -/
inductive Err where
  | format (msg : String)
  | geometry (msg : String)
  | assertFail
  | outOfFuel
deriving DecidableEq, Repr

/-- `detail::geometric_attribute` (geometry.hpp lines 143-188): the
captured iterator position `it`, key and scaling indexes, remaining
`count` and running accumulated `value`. -/
structure GeometricAttribute where
  it : List Nat
  key_index : Nat
  scaling_index : Nat
  count : Nat
  value : Int
deriving DecidableEq, Repr

/-- `geometric_attribute::get_next_value` (geometry.hpp lines 171-182):
returns false when the remaining count is 0; otherwise reads one raw
value and decrements the count; a raw 0 yields false without touching
the accumulated value; otherwise zigzag(raw - 1) is added to the
accumulated value and the call returns true. -/
def GeometricAttribute.get_next_value (a : GeometricAttribute) :
    Bool × GeometricAttribute :=
  if a.count = 0 then (false, a)
  else
    let raw_value := a.it.headD 0
    let a' : GeometricAttribute :=
      { a with it := a.it.tail, count := a.count - 1 }
    if raw_value = 0 then (false, a')
    else (true, { a' with value := a.value + decode_zigzag64 (raw_value - 1) })

/-- The value-skipping loop of the `geometric_attribute_collection`
constructor (geometry.hpp lines 245-250): `while (attr_count-- > 0)
{ ++it; if (attr_count != 0 && it == end) throw; }`.  Advancing past the
end keeps the cursor at the end (the construction checks exclude an
empty cursor at entry). -/
def skipValues : Nat → List Nat → Except Err (List Nat)
  | 0, it => .ok it
  | n + 1, it =>
    let it' := it.tail
    if n ≠ 0 ∧ it' = [] then .error (.format "geometric attributes end too soon")
    else skipValues n it'

/-- The `geometric_attribute_collection` constructor (geometry.hpp lines
222-252): while the cursor has data and fewer than `slots`
(`MaxGeometricAttributes`) attributes are registered, read the complex
value (low 4 bits must be 10 = number list), the count and the scaling
reference (checking for exhaustion after each of the three reads),
register the attribute bound to the current position, then skip past
`count` raw values. -/
def geometric_attribute_collection (slots : Nat) (it : List Nat) :
    Except Err (List GeometricAttribute) :=
  match slots, it with
  | 0, _ => .ok []
  | _, [] => .ok []
  | slots + 1, complex_value :: it1 =>
    if complex_value % 16 ≠ 10 then
      .error (.format "geometric attributes must be of type number list")
    else
      match it1 with
      | [] => .error (.format "geometric attributes end too soon")
      | attr_count :: it2 =>
        match it2 with
        | [] => .error (.format "geometric attributes end too soon")
        | scaling :: it3 =>
          if it3 = [] then .error (.format "geometric attributes end too soon")
          else
            match skipValues attr_count it3 with
            | .error e => .error e
            | .ok it4 =>
              match geometric_attribute_collection slots it4 with
              | .error e => .error e
              | .ok rest =>
                .ok (⟨it3, complex_value / 16, scaling, attr_count, 0⟩ :: rest)

/-- The state of `detail::extended_geometry_decoder` (geometry.hpp lines
289-335): the three cursors, the accumulated cursor point, the maximum
repeat count, the current repeat count (starting at 0) and the
`Dimensions` template parameter (2 or 3). -/
structure DecoderState where
  geom : List Nat
  elev : List Int
  attr : List Nat
  cursor : UnscaledPoint
  maxCount : Nat
  count : Nat
  dim : Nat
deriving DecidableEq, Repr

/-- A fresh decoder as built by the constructor: cursor at (0,0,0) and
repeat count 0. -/
def initState (geom : List Nat) (elev : List Int) (attr : List Nat)
    (max : Nat) (dim : Nat) : DecoderState :=
  ⟨geom, elev, attr, ⟨0, 0, 0⟩, max, 0, dim⟩

/-- `extended_geometry_decoder::done` (geometry.hpp lines 341-344): both
the geometry and the elevation cursors are exhausted. -/
def done (s : DecoderState) : Bool :=
  s.geom.isEmpty && s.elev.isEmpty

/-- `extended_geometry_decoder::next_command` (geometry.hpp lines
346-376).  Requires the repeat count to be 0 (`vtzero_assert`).  Returns
false on an exhausted geometry cursor; errors when the command id is not
the expected one; for ClosePath the decoded count must be exactly 1 (and
the repeat count is left at 0); for MoveTo/LineTo the decoded count
becomes the repeat count and must not exceed the maximum. -/
def next_command (expected : CommandId) (s : DecoderState) :
    Except Err (Bool × DecoderState) :=
  if s.count ≠ 0 then .error .assertFail
  else
    match s.geom with
    | [] => .ok (false, s)
    | c :: rest =>
      if get_command_id c ≠ expected.toNat then
        .error (.geometry "expected command")
      else if expected = .CLOSE_PATH then
        if get_command_count c ≠ 1 then
          .error (.geometry "ClosePath command count is not 1")
        else .ok (true, { s with geom := rest })
      else
        if get_command_count c > s.maxCount then
          .error (.geometry "count too large")
        else .ok (true, { s with geom := rest, count := get_command_count c })

/-- `extended_geometry_decoder::next_point` (geometry.hpp lines
378-396).  Requires the repeat count to be positive (`vtzero_assert`);
errors when fewer than two integers remain in the geometry cursor; adds
the two zigzag-decoded deltas to the cursor; in 3 dimensions with a
non-exhausted elevation cursor also adds one raw elevation delta;
decrements the repeat count and returns the updated cursor point. -/
def next_point (s : DecoderState) : Except Err (UnscaledPoint × DecoderState) :=
  if s.count = 0 then .error .assertFail
  else
    match s.geom with
    | gx :: gy :: rest =>
      let cx := s.cursor.x + decode_zigzag32 gx
      let cy := s.cursor.y + decode_zigzag32 gy
      match s.dim, s.elev with
      | 3, e :: es =>
        let c : UnscaledPoint := ⟨cx, cy, s.cursor.z + e⟩
        .ok (c, { s with geom := rest, elev := es, cursor := c,
                         count := s.count - 1 })
      | _, _ =>
        let c : UnscaledPoint := ⟨cx, cy, s.cursor.z⟩
        .ok (c, { s with geom := rest, cursor := c, count := s.count - 1 })
    | _ => .error (.geometry "too few points in geometry")

/-- The callbacks of the visitor protocol (`TGeomHandler`), recorded as
a trace.  `P` is the handler's converted point type (the result of its
`convert` hook). -/
inductive Event (P : Type) where
  | points_begin (n : Nat)
  | points_point (p : P)
  | points_end
  | linestring_begin (n : Nat)
  | linestring_point (p : P)
  | linestring_end
  | ring_begin (n : Nat)
  | ring_point (p : P)
  | ring_end (t : RingType)
  | attr_value (key scaling : Nat) (v : Int)
  | attr_null (key : Nat)
deriving DecidableEq, Repr

/-- One pass of the `for (auto& geom_attr : geom_attributes)` loop the
drivers run after emitting a vertex: each attribute is stepped with
`get_next_value` and produces either an `attribute_value` or an
`attribute_null` callback. -/
def stepAttrs (P : Type) : List GeometricAttribute →
    List (Event P) × List GeometricAttribute
  | [] => ([], [])
  | a :: as =>
    let r := a.get_next_value
    let ev : Event P :=
      if r.1 then .attr_value r.2.key_index r.2.scaling_index r.2.value
      else .attr_null r.2.key_index
    let tail := stepAttrs P as
    (ev :: tail.1, r.2 :: tail.2)

/-- The `while (count() > 0)` loop of `decode_point` (geometry.hpp lines
413-422), recursing on the remaining repeat count: per point one
`points_point(convert(next_point()))` followed by the attribute
callbacks. -/
def pointLoop {P : Type} (conv : UnscaledPoint → P) :
    Nat → DecoderState → List GeometricAttribute →
    Except Err (List (Event P) × DecoderState × List GeometricAttribute)
  | 0, s, attrs => .ok ([], s, attrs)
  | n + 1, s, attrs =>
    match next_point s with
    | .error e => .error e
    | .ok (p, s1) =>
      let st := stepAttrs P attrs
      match pointLoop conv n s1 st.2 with
      | .error e => .error e
      | .ok (evs, s2, attrs2) =>
        .ok (.points_point (conv p) :: st.1 ++ evs, s2, attrs2)

/-- `extended_geometry_decoder::decode_point` (geometry.hpp lines
398-432): a single MoveTo with positive count, the per-point loop, then
both cursors must be exhausted before `points_end` is emitted. -/
def decode_point {P : Type} (conv : UnscaledPoint → P) (maxAttrs : Nat)
    (s : DecoderState) : Except Err (List (Event P) × DecoderState) :=
  match next_command .MOVE_TO s with
  | .error e => .error e
  | .ok (false, _) => .error (.geometry "expected MoveTo command")
  | .ok (true, s1) =>
    if s1.count = 0 then .error (.geometry "MoveTo command count is zero")
    else
      match geometric_attribute_collection maxAttrs s1.attr with
      | .error e => .error e
      | .ok attrs =>
        match pointLoop conv s1.count s1 attrs with
        | .error e => .error e
        | .ok (evs, s2, _) =>
          if done s2 then .ok (.points_begin s1.count :: evs ++ [.points_end], s2)
          else .error (.geometry "additional data after end of geometry")

/-- The `while (count() > 0)` loop of `decode_linestring` (geometry.hpp
lines 468-477), recursing on the remaining repeat count. -/
def lineToLoop {P : Type} (conv : UnscaledPoint → P) :
    Nat → DecoderState → List GeometricAttribute →
    Except Err (List (Event P) × DecoderState × List GeometricAttribute)
  | 0, s, attrs => .ok ([], s, attrs)
  | n + 1, s, attrs =>
    match next_point s with
    | .error e => .error e
    | .ok (p, s1) =>
      let st := stepAttrs P attrs
      match lineToLoop conv n s1 st.2 with
      | .error e => .error e
      | .ok (evs, s2, attrs2) =>
        .ok (.linestring_point (conv p) :: st.1 ++ evs, s2, attrs2)

/-- The `while (next_command(MOVE_TO))` loop of `decode_linestring`
(geometry.hpp lines 439-480).  The fuel recursion is instantiated with
the geometry-stream length by `decode_linestring`; every iteration
consumes at least four geometry integers, so fuel exhaustion
(`Err.outOfFuel`) is unreachable from there.  Per iteration: the MoveTo
count must be exactly 1, the single start point is decoded, a LineTo
with positive count must follow, and the linestring is emitted as
`linestring_begin(count + 1)`, the start point with its attribute
callbacks, the LineTo points with theirs, and `linestring_end`. -/
def lineLoop {P : Type} (conv : UnscaledPoint → P) :
    Nat → DecoderState → List GeometricAttribute →
    Except Err (List (Event P) × DecoderState × List GeometricAttribute)
  | 0, s, attrs =>
    (match next_command .MOVE_TO s with
     | .error e => .error e
     | .ok (false, s0) => .ok ([], s0, attrs)
     | .ok (true, _) => .error .outOfFuel)
  | fuel + 1, s, attrs =>
    match next_command .MOVE_TO s with
    | .error e => .error e
    | .ok (false, s0) => .ok ([], s0, attrs)
    | .ok (true, s1) =>
      if s1.count ≠ 1 then .error (.geometry "MoveTo command count is not 1")
      else
        match next_point s1 with
        | .error e => .error e
        | .ok (p0, s2) =>
          match next_command .LINE_TO s2 with
          | .error e => .error e
          | .ok (false, _) => .error (.geometry "expected LineTo command")
          | .ok (true, s3) =>
            if s3.count = 0 then .error (.geometry "LineTo command count is zero")
            else
              let st := stepAttrs P attrs
              match lineToLoop conv s3.count s3 st.2 with
              | .error e => .error e
              | .ok (evs, s4, attrs4) =>
                match lineLoop conv fuel s4 attrs4 with
                | .error e => .error e
                | .ok (evs5, s5, attrs5) =>
                  .ok (.linestring_begin (s3.count + 1) ::
                         .linestring_point (conv p0) :: st.1 ++ evs ++
                         .linestring_end :: evs5,
                       s5, attrs5)

/-- `extended_geometry_decoder::decode_linestring` (geometry.hpp lines
434-483): build the attribute collection once, then run the MoveTo
loop. -/
def decode_linestring {P : Type} (conv : UnscaledPoint → P) (maxAttrs : Nat)
    (s : DecoderState) : Except Err (List (Event P) × DecoderState) :=
  match geometric_attribute_collection maxAttrs s.attr with
  | .error e => .error e
  | .ok attrs =>
    match lineLoop conv s.geom.length s attrs with
    | .error e => .error e
    | .ok (evs, s', _) => .ok (evs, s')

/-- `extended_geometry_decoder::det` (geometry.hpp lines 294-297): the
2D cross product of two points, on the 64-bit promotions of the 32-bit
planar coordinates. -/
def det (a b : UnscaledPoint) : Int :=
  a.x * b.y - b.x * a.y

/-- The ring classification at geometry.hpp lines 539-540:
`sum > 0 ? outer : sum < 0 ? inner : invalid`. -/
def classify (sum : Int) : RingType :=
  if sum > 0 then .outer else if sum < 0 then .inner else .invalid

/-- The `while (count() > 0)` loop of `decode_polygon` (geometry.hpp
lines 516-528), recursing on the remaining repeat count and threading
the running cross-product sum and the last decoded point. -/
def ringLoop {P : Type} (conv : UnscaledPoint → P) :
    Nat → DecoderState → Int → UnscaledPoint → List GeometricAttribute →
    Except Err (List (Event P) × DecoderState × Int × UnscaledPoint ×
                List GeometricAttribute)
  | 0, s, sum, last, attrs => .ok ([], s, sum, last, attrs)
  | n + 1, s, sum, last, attrs =>
    match next_point s with
    | .error e => .error e
    | .ok (p, s1) =>
      let st := stepAttrs P attrs
      match ringLoop conv n s1 (sum + det last p) p st.2 with
      | .error e => .error e
      | .ok (evs, s2, sum2, last2, attrs2) =>
        .ok (.ring_point (conv p) :: st.1 ++ evs, s2, sum2, last2, attrs2)

/-- The `while (next_command(MOVE_TO))` loop of `decode_polygon`
(geometry.hpp lines 490-541), fuel-recursive like `lineLoop` (every
iteration consumes at least five geometry integers).  Per ring: MoveTo
count must be 1, the start point is decoded with the sum at 0, a LineTo
must follow (its count may be 0), `ring_begin(count + 2)` and the start
point with its attribute callbacks are emitted, the interior points run
through `ringLoop`, a ClosePath must follow, the closing cross product
`det(last, start)` is added, the start point is emitted again (no
attribute callbacks) and `ring_end` gets the classified sum. -/
def polyLoop {P : Type} (conv : UnscaledPoint → P) :
    Nat → DecoderState → List GeometricAttribute →
    Except Err (List (Event P) × DecoderState × List GeometricAttribute)
  | 0, s, attrs =>
    (match next_command .MOVE_TO s with
     | .error e => .error e
     | .ok (false, s0) => .ok ([], s0, attrs)
     | .ok (true, _) => .error .outOfFuel)
  | fuel + 1, s, attrs =>
    match next_command .MOVE_TO s with
    | .error e => .error e
    | .ok (false, s0) => .ok ([], s0, attrs)
    | .ok (true, s1) =>
      if s1.count ≠ 1 then .error (.geometry "MoveTo command count is not 1")
      else
        match next_point s1 with
        | .error e => .error e
        | .ok (start, s2) =>
          match next_command .LINE_TO s2 with
          | .error e => .error e
          | .ok (false, _) => .error (.geometry "expected LineTo command")
          | .ok (true, s3) =>
            let st := stepAttrs P attrs
            match ringLoop conv s3.count s3 0 start st.2 with
            | .error e => .error e
            | .ok (evs, s4, sum4, last4, attrs4) =>
              match next_command .CLOSE_PATH s4 with
              | .error e => .error e
              | .ok (false, _) => .error (.geometry "expected ClosePath command")
              | .ok (true, s5) =>
                match polyLoop conv fuel s5 attrs4 with
                | .error e => .error e
                | .ok (evs6, s6, attrs6) =>
                  .ok (.ring_begin (s3.count + 2) ::
                         .ring_point (conv start) :: st.1 ++ evs ++
                         .ring_point (conv start) ::
                         .ring_end (classify (sum4 + det last4 start)) :: evs6,
                       s6, attrs6)

/-- `extended_geometry_decoder::decode_polygon` (geometry.hpp lines
486-544): build the attribute collection once, then run the MoveTo
loop. -/
def decode_polygon {P : Type} (conv : UnscaledPoint → P) (maxAttrs : Nat)
    (s : DecoderState) : Except Err (List (Event P) × DecoderState) :=
  match geometric_attribute_collection maxAttrs s.attr with
  | .error e => .error e
  | .ok attrs =>
    match polyLoop conv s.geom.length s attrs with
    | .error e => .error e
    | .ok (evs, s', _) => .ok (evs, s')

/-! ## Observations on traces -/

/-- Attribute callbacks (either kind). -/
def isAttrEvent {P : Type} : Event P → Bool
  | .attr_value _ _ _ => true
  | .attr_null _ => true
  | _ => false

/-- The payloads of the `points_point` callbacks of a trace. -/
def ppPoints {P : Type} (evs : List (Event P)) : List P :=
  evs.filterMap fun e => match e with
    | .points_point p => some p
    | _ => none

/-- The payloads of the `linestring_point` callbacks of a trace. -/
def lsPoints {P : Type} (evs : List (Event P)) : List P :=
  evs.filterMap fun e => match e with
    | .linestring_point p => some p
    | _ => none

/-- The payloads of the `ring_point` callbacks of a trace. -/
def rpPoints {P : Type} (evs : List (Event P)) : List P :=
  evs.filterMap fun e => match e with
    | .ring_point p => some p
    | _ => none

/-- The number of `ring_end` callbacks of a trace (one per accepted
ring; each ring repeats its start point, so the number of decoded
polygon vertices is `(rpPoints evs).length - countRingEnd evs`). -/
def countRingEnd {P : Type} (evs : List (Event P)) : Nat :=
  evs.countP fun e => match e with
    | .ring_end _ => true
    | _ => false

/-- `blocksShape mk m ps evs`: the trace `evs` is exactly, for each
point of `ps` in order, one `mk`-point callback followed by a block of
`m` attribute callbacks. -/
def blocksShape {P : Type} (mk : P → Event P) (m : Nat) :
    List P → List (Event P) → Prop
  | [], evs => evs = []
  | p :: ps, evs => ∃ blk rest, evs = mk p :: blk ++ rest ∧ blk.length = m ∧
      (∀ e ∈ blk, isAttrEvent e = true) ∧ blocksShape mk m ps rest

/-- `decodedChain s ps`: the points `ps` are exactly the results of
successive `next_point` calls starting in state `s` (each adds its
zigzag-decoded deltas to the cursor left by the previous one). -/
def decodedChain : DecoderState → List UnscaledPoint → Prop
  | _, [] => True
  | s, p :: ps => ∃ s', next_point s = .ok (p, s') ∧ decodedChain s' ps

/-- Sum of the cross products of the consecutive pairs along a path
starting at `prev`. -/
def pathDet (prev : UnscaledPoint) : List UnscaledPoint → Int
  | [] => 0
  | p :: ps => det prev p + pathDet p ps

/-- The shoelace sum of a vertex list: the sum of `det` over all
consecutive pairs of the cyclic sequence.  This is twice the signed
area of the polygon with those vertices. -/
def shoelace : List UnscaledPoint → Int
  | [] => 0
  | p :: ps => pathDet p ps + det (ps.getLastD p) p

/-- The shape of an accepted linestring-driver trace: a concatenation
of sub-traces, one per accepted linestring, each
`linestring_begin(k)` with `k ≥ 2` points (the MoveTo point plus the
LineTo points, each followed by `m` attribute callbacks) and a closing
`linestring_end`. -/
inductive LsShape {P : Type} (m : Nat) : List (Event P) → Prop where
  | nil : LsShape m []
  | cons : ∀ (ps : List P) (blk rest : List (Event P)),
      2 ≤ ps.length →
      blocksShape Event.linestring_point m ps blk →
      LsShape m rest →
      LsShape m (Event.linestring_begin ps.length :: blk ++
                   Event.linestring_end :: rest)

/-- The shape of an accepted polygon-driver trace: a concatenation of
ring sub-traces.  Each ring has decoded vertices `start :: ints` and
emits `ring_begin(ints.length + 2)`, the converted start point and the
converted interior points (each with `m` attribute callbacks), the
converted start point again (no attribute callbacks: the ring's first
and last emitted points are both `conv start`), and `ring_end` with the
classification of the shoelace sum of the decoded vertex sequence
before closing. -/
inductive RingsShape {P : Type} (conv : UnscaledPoint → P) (m : Nat) :
    List (Event P) → Prop where
  | nil : RingsShape conv m []
  | cons : ∀ (start : UnscaledPoint) (ints : List UnscaledPoint)
      (blk rest : List (Event P)),
      blocksShape Event.ring_point m ((start :: ints).map conv) blk →
      RingsShape conv m rest →
      RingsShape conv m (Event.ring_begin (ints.length + 2) :: blk ++
        Event.ring_point (conv start) ::
        Event.ring_end (classify (shoelace (start :: ints))) :: rest)

/-! ## Basic lemmas -/

theorem stepAttrs_fst_length (P : Type) (attrs : List GeometricAttribute) :
    (stepAttrs P attrs).1.length = attrs.length := by
  induction attrs with
  | nil => rfl
  | cons a as ih => simp [stepAttrs, ih]

theorem stepAttrs_snd_length (P : Type) (attrs : List GeometricAttribute) :
    (stepAttrs P attrs).2.length = attrs.length := by
  induction attrs with
  | nil => rfl
  | cons a as ih => simp [stepAttrs, ih]

theorem stepAttrs_fst_attr (P : Type) (attrs : List GeometricAttribute) :
    ∀ e ∈ (stepAttrs P attrs).1, isAttrEvent e = true := by
  induction attrs with
  | nil => simp [stepAttrs]
  | cons a as ih =>
    intro e he
    simp only [stepAttrs, List.mem_cons] at he
    rcases he with rfl | he
    · by_cases hb : a.get_next_value.1 <;> simp [hb, isAttrEvent]
    · exact ih e he

theorem ppPoints_of_attr {P : Type} {evs : List (Event P)}
    (h : ∀ e ∈ evs, isAttrEvent e = true) : ppPoints evs = [] := by
  induction evs with
  | nil => rfl
  | cons e es ih =>
    have he := h e (by simp)
    cases e <;> simp_all [ppPoints, isAttrEvent]

theorem lsPoints_of_attr {P : Type} {evs : List (Event P)}
    (h : ∀ e ∈ evs, isAttrEvent e = true) : lsPoints evs = [] := by
  induction evs with
  | nil => rfl
  | cons e es ih =>
    have he := h e (by simp)
    cases e <;> simp_all [lsPoints, isAttrEvent]

theorem rpPoints_of_attr {P : Type} {evs : List (Event P)}
    (h : ∀ e ∈ evs, isAttrEvent e = true) : rpPoints evs = [] := by
  induction evs with
  | nil => rfl
  | cons e es ih =>
    have he := h e (by simp)
    cases e <;> simp_all [rpPoints, isAttrEvent]

theorem countRingEnd_of_attr {P : Type} {evs : List (Event P)}
    (h : ∀ e ∈ evs, isAttrEvent e = true) : countRingEnd evs = 0 := by
  induction evs with
  | nil => rfl
  | cons e es ih =>
    have he := h e (by simp)
    cases e <;> simp_all [countRingEnd, isAttrEvent, List.countP_cons]

theorem ppPoints_append {P : Type} (l1 l2 : List (Event P)) :
    ppPoints (l1 ++ l2) = ppPoints l1 ++ ppPoints l2 := by
  simp [ppPoints]

theorem lsPoints_append {P : Type} (l1 l2 : List (Event P)) :
    lsPoints (l1 ++ l2) = lsPoints l1 ++ lsPoints l2 := by
  simp [lsPoints]

theorem rpPoints_append {P : Type} (l1 l2 : List (Event P)) :
    rpPoints (l1 ++ l2) = rpPoints l1 ++ rpPoints l2 := by
  simp [rpPoints]

theorem countRingEnd_append {P : Type} (l1 l2 : List (Event P)) :
    countRingEnd (l1 ++ l2) = countRingEnd l1 + countRingEnd l2 := by
  simp [countRingEnd, List.countP_append]

theorem ppPoints_cons_point {P : Type} (p : P) (evs : List (Event P)) :
    ppPoints (.points_point p :: evs) = p :: ppPoints evs := by
  simp [ppPoints]

theorem lsPoints_cons_point {P : Type} (p : P) (evs : List (Event P)) :
    lsPoints (.linestring_point p :: evs) = p :: lsPoints evs := by
  simp [lsPoints]

theorem rpPoints_cons_point {P : Type} (p : P) (evs : List (Event P)) :
    rpPoints (.ring_point p :: evs) = p :: rpPoints evs := by
  simp [rpPoints]

theorem lsPoints_cons_begin {P : Type} (n : Nat) (evs : List (Event P)) :
    lsPoints (.linestring_begin n :: evs) = lsPoints evs := by
  simp [lsPoints]

theorem lsPoints_cons_end {P : Type} (evs : List (Event P)) :
    lsPoints (.linestring_end :: evs) = lsPoints evs := by
  simp [lsPoints]

theorem rpPoints_cons_begin {P : Type} (n : Nat) (evs : List (Event P)) :
    rpPoints (.ring_begin n :: evs) = rpPoints evs := by
  simp [rpPoints]

theorem rpPoints_cons_end {P : Type} (t : RingType) (evs : List (Event P)) :
    rpPoints (.ring_end t :: evs) = rpPoints evs := by
  simp [rpPoints]

theorem countRingEnd_cons_begin {P : Type} (n : Nat) (evs : List (Event P)) :
    countRingEnd (.ring_begin n :: evs) = countRingEnd evs := by
  simp [countRingEnd, List.countP_cons]

theorem countRingEnd_cons_rp {P : Type} (p : P) (evs : List (Event P)) :
    countRingEnd (.ring_point p :: evs) = countRingEnd evs := by
  simp [countRingEnd, List.countP_cons]

theorem countRingEnd_cons_end {P : Type} (t : RingType) (evs : List (Event P)) :
    countRingEnd (.ring_end t :: evs) = countRingEnd evs + 1 := by
  simp [countRingEnd, List.countP_cons]

theorem next_point_spec {s : DecoderState} {p : UnscaledPoint} {s' : DecoderState}
    (h : next_point s = .ok (p, s')) :
    s'.geom.length + 2 = s.geom.length ∧ s'.cursor = p ∧
    s'.count = s.count - 1 ∧ 0 < s.count ∧
    s'.attr = s.attr ∧ s'.maxCount = s.maxCount ∧ s'.dim = s.dim ∧
    ∃ gx gy rest, s.geom = gx :: gy :: rest ∧ s'.geom = rest ∧
      p.x = s.cursor.x + decode_zigzag32 gx ∧
      p.y = s.cursor.y + decode_zigzag32 gy := by
  unfold next_point at h
  split at h
  · exact absurd h (by simp)
  · next hc =>
    split at h
    · rename_i A gx gy rest hg
      split at h
      · rename_i B C e es hd he
        simp only [Except.ok.injEq, Prod.mk.injEq] at h
        obtain ⟨rfl, rfl⟩ := h
        refine ⟨by simp [hg], rfl, rfl, Nat.pos_of_ne_zero hc, rfl, rfl, rfl,
          gx, gy, rest, hg, rfl, rfl, rfl⟩
      · rename_i B C D
        simp only [Except.ok.injEq, Prod.mk.injEq] at h
        obtain ⟨rfl, rfl⟩ := h
        refine ⟨by simp [hg], rfl, rfl, Nat.pos_of_ne_zero hc, rfl, rfl, rfl,
          gx, gy, rest, hg, rfl, rfl, rfl⟩
    · exact absurd h (by simp)

theorem next_command_ok_false {id : CommandId} {s s' : DecoderState}
    (h : next_command id s = .ok (false, s')) :
    s.geom = [] ∧ s' = s ∧ s.count = 0 := by
  unfold next_command at h
  split at h
  · exact absurd h (by simp)
  · next hc =>
    split at h
    · rename_i hg
      simp only [Except.ok.injEq, Prod.mk.injEq, true_and] at h
      exact ⟨hg, h.symm, by omega⟩
    · split at h
      · exact absurd h (by simp)
      · split at h
        · split at h
          · exact absurd h (by simp)
          · simp at h
        · split at h
          · exact absurd h (by simp)
          · simp at h

theorem next_command_ok_true {id : CommandId} {s s' : DecoderState}
    (h : next_command id s = .ok (true, s')) :
    s.count = 0 ∧ ∃ c rest, s.geom = c :: rest ∧ get_command_id c = id.toNat ∧
      s'.geom = rest ∧ s'.elev = s.elev ∧ s'.attr = s.attr ∧
      s'.cursor = s.cursor ∧ s'.maxCount = s.maxCount ∧ s'.dim = s.dim ∧
      ((id = .CLOSE_PATH ∧ get_command_count c = 1 ∧ s'.count = 0) ∨
       (id ≠ .CLOSE_PATH ∧ s'.count = get_command_count c ∧
         get_command_count c ≤ s.maxCount)) := by
  unfold next_command at h
  split at h
  · exact absurd h (by simp)
  · next hc =>
    split at h
    · simp at h
    · rename_i A c rest hg
      split at h
      · exact absurd h (by simp)
      · rename_i hid
        split at h
        · rename_i hcp
          split at h
          · exact absurd h (by simp)
          · rename_i hcnt
            simp only [Except.ok.injEq, Prod.mk.injEq, true_and] at h
            subst h
            refine ⟨by omega, c, rest, hg, by omega, rfl, rfl, rfl,
              rfl, rfl, rfl, Or.inl ⟨hcp, by omega, by show s.count = 0; omega⟩⟩
        · rename_i hcp
          split at h
          · exact absurd h (by simp)
          · rename_i hmax
            simp only [Except.ok.injEq, Prod.mk.injEq, true_and] at h
            subst h
            refine ⟨by omega, c, rest, hg, by omega, rfl, rfl, rfl,
              rfl, rfl, rfl, Or.inr ⟨hcp, rfl, by omega⟩⟩

theorem pointLoop_spec {P : Type} (conv : UnscaledPoint → P) :
    ∀ (n : Nat) (s : DecoderState) (attrs : List GeometricAttribute)
      (evs : List (Event P)) (s' : DecoderState)
      (attrs' : List GeometricAttribute),
      pointLoop conv n s attrs = .ok (evs, s', attrs') →
      ∃ ps : List UnscaledPoint,
        ps.length = n ∧
        decodedChain s ps ∧
        blocksShape Event.points_point attrs.length (ps.map conv) evs ∧
        ppPoints evs = ps.map conv ∧
        attrs'.length = attrs.length ∧
        s'.geom.length + 2 * n = s.geom.length := by
  intro n
  induction n with
  | zero =>
    intro s attrs evs s' attrs' h
    simp only [pointLoop, Except.ok.injEq, Prod.mk.injEq] at h
    obtain ⟨rfl, rfl, rfl⟩ := h
    exact ⟨[], rfl, trivial, rfl, rfl, rfl, by omega⟩
  | succ n ih =>
    intro s attrs evs s' attrs' h
    simp only [pointLoop] at h
    split at h
    · exact absurd h (by simp)
    · rename_i p s1 hnp
      split at h
      · exact absurd h (by simp)
      · rename_i evs2 s2 attrs2 hrec
        simp only [Except.ok.injEq, Prod.mk.injEq] at h
        obtain ⟨rfl, rfl, rfl⟩ := h
        obtain ⟨ps2, hlen, hchain, hshape, hpp, halen, hglen⟩ :=
          ih s1 (stepAttrs P attrs).2 evs2 s2 attrs2 hrec
        obtain ⟨hg2, -, -, -, -, -, -, -⟩ := next_point_spec hnp
        refine ⟨p :: ps2, by simp [hlen], ⟨s1, hnp, hchain⟩, ?_, ?_, ?_, ?_⟩
        · exact ⟨(stepAttrs P attrs).1, evs2, rfl, stepAttrs_fst_length P attrs,
            stepAttrs_fst_attr P attrs,
            by rwa [stepAttrs_snd_length] at hshape⟩
        · simp only [ppPoints_cons_point, ppPoints_append,
            ppPoints_of_attr (stepAttrs_fst_attr P attrs), hpp]
          simp
        · rw [halen, stepAttrs_snd_length]
        · omega

theorem lineToLoop_spec {P : Type} (conv : UnscaledPoint → P) :
    ∀ (n : Nat) (s : DecoderState) (attrs : List GeometricAttribute)
      (evs : List (Event P)) (s' : DecoderState)
      (attrs' : List GeometricAttribute),
      lineToLoop conv n s attrs = .ok (evs, s', attrs') →
      ∃ ps : List UnscaledPoint,
        ps.length = n ∧
        decodedChain s ps ∧
        blocksShape Event.linestring_point attrs.length (ps.map conv) evs ∧
        lsPoints evs = ps.map conv ∧
        attrs'.length = attrs.length ∧
        s'.geom.length + 2 * n = s.geom.length := by
  intro n
  induction n with
  | zero =>
    intro s attrs evs s' attrs' h
    simp only [lineToLoop, Except.ok.injEq, Prod.mk.injEq] at h
    obtain ⟨rfl, rfl, rfl⟩ := h
    exact ⟨[], rfl, trivial, rfl, rfl, rfl, by omega⟩
  | succ n ih =>
    intro s attrs evs s' attrs' h
    simp only [lineToLoop] at h
    split at h
    · exact absurd h (by simp)
    · rename_i p s1 hnp
      split at h
      · exact absurd h (by simp)
      · rename_i evs2 s2 attrs2 hrec
        simp only [Except.ok.injEq, Prod.mk.injEq] at h
        obtain ⟨rfl, rfl, rfl⟩ := h
        obtain ⟨ps2, hlen, hchain, hshape, hpp, halen, hglen⟩ :=
          ih s1 (stepAttrs P attrs).2 evs2 s2 attrs2 hrec
        obtain ⟨hg2, -, -, -, -, -, -, -⟩ := next_point_spec hnp
        refine ⟨p :: ps2, by simp [hlen], ⟨s1, hnp, hchain⟩, ?_, ?_, ?_, ?_⟩
        · exact ⟨(stepAttrs P attrs).1, evs2, rfl, stepAttrs_fst_length P attrs,
            stepAttrs_fst_attr P attrs,
            by rwa [stepAttrs_snd_length] at hshape⟩
        · simp only [lsPoints_cons_point, lsPoints_append,
            lsPoints_of_attr (stepAttrs_fst_attr P attrs), hpp]
          simp
        · rw [halen, stepAttrs_snd_length]
        · omega

theorem ringLoop_spec {P : Type} (conv : UnscaledPoint → P) :
    ∀ (n : Nat) (s : DecoderState) (sum : Int) (last : UnscaledPoint)
      (attrs : List GeometricAttribute)
      (evs : List (Event P)) (s' : DecoderState) (sum' : Int)
      (last' : UnscaledPoint) (attrs' : List GeometricAttribute),
      ringLoop conv n s sum last attrs = .ok (evs, s', sum', last', attrs') →
      ∃ ps : List UnscaledPoint,
        ps.length = n ∧
        decodedChain s ps ∧
        blocksShape Event.ring_point attrs.length (ps.map conv) evs ∧
        rpPoints evs = ps.map conv ∧
        countRingEnd evs = 0 ∧
        sum' = sum + pathDet last ps ∧
        last' = ps.getLastD last ∧
        attrs'.length = attrs.length ∧
        s'.geom.length + 2 * n = s.geom.length := by
  intro n
  induction n with
  | zero =>
    intro s sum last attrs evs s' sum' last' attrs' h
    simp only [ringLoop, Except.ok.injEq, Prod.mk.injEq] at h
    obtain ⟨rfl, rfl, rfl, rfl, rfl⟩ := h
    exact ⟨[], rfl, trivial, rfl, rfl, rfl, by simp [pathDet], rfl, rfl, by omega⟩
  | succ n ih =>
    intro s sum last attrs evs s' sum' last' attrs' h
    simp only [ringLoop] at h
    split at h
    · exact absurd h (by simp)
    · rename_i p s1 hnp
      split at h
      · exact absurd h (by simp)
      · rename_i evs2 s2 sum2 last2 attrs2 hrec
        simp only [Except.ok.injEq, Prod.mk.injEq] at h
        obtain ⟨rfl, rfl, rfl, rfl, rfl⟩ := h
        obtain ⟨ps2, hlen, hchain, hshape, hpp, hce, hsum, hlast, halen, hglen⟩ :=
          ih s1 (sum + det last p) p (stepAttrs P attrs).2 evs2 s2 sum2 last2
            attrs2 hrec
        obtain ⟨hg2, -, -, -, -, -, -, -⟩ := next_point_spec hnp
        refine ⟨p :: ps2, by simp [hlen], ⟨s1, hnp, hchain⟩, ?_, ?_, ?_, ?_, ?_, ?_, ?_⟩
        · exact ⟨(stepAttrs P attrs).1, evs2, rfl, stepAttrs_fst_length P attrs,
            stepAttrs_fst_attr P attrs,
            by rwa [stepAttrs_snd_length] at hshape⟩
        · simp only [rpPoints_cons_point, rpPoints_append,
            rpPoints_of_attr (stepAttrs_fst_attr P attrs), hpp]
          simp
        · simp only [countRingEnd_cons_rp, countRingEnd_append,
            countRingEnd_of_attr (stepAttrs_fst_attr P attrs), hce]
        · simp only [pathDet, hsum]
          omega
        · simp only [hlast, List.getLastD_cons]
        · rw [halen, stepAttrs_snd_length]
        · omega

theorem lineLoop_spec {P : Type} (conv : UnscaledPoint → P) :
    ∀ (fuel : Nat) (s : DecoderState) (attrs : List GeometricAttribute)
      (evs : List (Event P)) (s' : DecoderState)
      (attrs' : List GeometricAttribute),
      lineLoop conv fuel s attrs = .ok (evs, s', attrs') →
      LsShape attrs.length evs ∧
      attrs'.length = attrs.length ∧
      s'.geom = [] ∧
      2 * (lsPoints evs).length ≤ s.geom.length := by
  intro fuel
  induction fuel with
  | zero =>
    intro s attrs evs s' attrs' h
    simp only [lineLoop] at h
    split at h
    · exact absurd h (by simp)
    · rename_i s0 hnc
      simp only [Except.ok.injEq, Prod.mk.injEq] at h
      obtain ⟨rfl, rfl, rfl⟩ := h
      obtain ⟨hge, rfl, -⟩ := next_command_ok_false hnc
      exact ⟨.nil, rfl, hge, by simp [lsPoints]⟩
    · exact absurd h (by simp)
  | succ fuel ih =>
    intro s attrs evs s' attrs' h
    simp only [lineLoop] at h
    split at h
    · exact absurd h (by simp)
    · rename_i s0 hnc
      simp only [Except.ok.injEq, Prod.mk.injEq] at h
      obtain ⟨rfl, rfl, rfl⟩ := h
      obtain ⟨hge, rfl, -⟩ := next_command_ok_false hnc
      exact ⟨.nil, rfl, hge, by simp [lsPoints]⟩
    · rename_i s1 hnc1
      split at h
      · exact absurd h (by simp)
      · rename_i hcnt1
        split at h
        · exact absurd h (by simp)
        · rename_i p0 s2 hnp
          split at h
          · exact absurd h (by simp)
          · exact absurd h (by simp)
          · rename_i s3 hnc2
            split at h
            · exact absurd h (by simp)
            · rename_i hcnt0
              split at h
              · exact absurd h (by simp)
              · rename_i evs4 s4 attrs4 hltl
                split at h
                · exact absurd h (by simp)
                · rename_i evs5 s5 attrs5 hrec
                  simp only [Except.ok.injEq, Prod.mk.injEq] at h
                  obtain ⟨rfl, rfl, rfl⟩ := h
                  obtain ⟨ps4, hlen4, hchain4, hshape4, hls4, halen4, hglen4⟩ :=
                    lineToLoop_spec conv _ _ _ _ _ _ hltl
                  obtain ⟨hshape5, halen5, hgeom5, hbound5⟩ :=
                    ih s4 attrs4 evs5 s5 attrs5 hrec
                  obtain ⟨-, c, rest, hgeq, -, hs1g, -, -, -, -, -, -⟩ :=
                    next_command_ok_true hnc1
                  obtain ⟨hnp2, -, -, -, -, -, -, -⟩ := next_point_spec hnp
                  obtain ⟨-, c2, rest2, hgeq2, -, hs3g, -, -, -, -, -, -⟩ :=
                    next_command_ok_true hnc2
                  have hshape4' : blocksShape Event.linestring_point attrs.length
                      (List.map conv ps4) evs4 := by
                    rwa [stepAttrs_snd_length] at hshape4
                  have hshape5' : LsShape attrs.length evs5 := by
                    rwa [halen4, stepAttrs_snd_length] at hshape5
                  have hblk : blocksShape Event.linestring_point attrs.length
                      (conv p0 :: List.map conv ps4)
                      (Event.linestring_point (conv p0) ::
                        (stepAttrs P attrs).1 ++ evs4) :=
                    ⟨(stepAttrs P attrs).1, evs4, rfl, stepAttrs_fst_length P attrs,
                      stepAttrs_fst_attr P attrs, hshape4'⟩
                  have hnil : lsPoints (stepAttrs P attrs).1 = ([] : List P) :=
                    lsPoints_of_attr (stepAttrs_fst_attr P attrs)
                  have hlene : s.geom.length = rest.length + 1 := by
                    rw [hgeq]; simp
                  have hlene1 : s1.geom.length = rest.length := by rw [hs1g]
                  have hlene2 : s2.geom.length = rest2.length + 1 := by
                    rw [hgeq2]; simp
                  have hlene3 : s3.geom.length = rest2.length := by rw [hs3g]
                  constructor
                  · have hcons := LsShape.cons (conv p0 :: List.map conv ps4)
                      (Event.linestring_point (conv p0) ::
                        (stepAttrs P attrs).1 ++ evs4) evs5
                      (by simp [hlen4]; omega) hblk hshape5'
                    simpa [hlen4, List.append_assoc] using hcons
                  refine ⟨by rw [halen5, halen4, stepAttrs_snd_length], hgeom5, ?_⟩
                  have hL : lsPoints
                      (Event.linestring_begin (s3.count + 1) ::
                        Event.linestring_point (conv p0) ::
                        (stepAttrs P attrs).1 ++ evs4 ++
                        Event.linestring_end :: evs5) =
                      conv p0 :: (List.map conv ps4 ++ lsPoints evs5) := by
                    simp only [lsPoints_cons_begin, lsPoints_cons_point,
                      lsPoints_append, lsPoints_cons_end, hnil, hls4]
                    simp
                  rw [hL]
                  simp only [List.length_cons, List.length_append,
                    List.length_map, hlen4]
                  omega

theorem polyLoop_spec {P : Type} (conv : UnscaledPoint → P) :
    ∀ (fuel : Nat) (s : DecoderState) (attrs : List GeometricAttribute)
      (evs : List (Event P)) (s' : DecoderState)
      (attrs' : List GeometricAttribute),
      polyLoop conv fuel s attrs = .ok (evs, s', attrs') →
      RingsShape conv attrs.length evs ∧
      attrs'.length = attrs.length ∧
      s'.geom = [] ∧
      2 * (rpPoints evs).length ≤ s.geom.length + 2 * countRingEnd evs := by
  intro fuel
  induction fuel with
  | zero =>
    intro s attrs evs s' attrs' h
    simp only [polyLoop] at h
    split at h
    · exact absurd h (by simp)
    · rename_i s0 hnc
      simp only [Except.ok.injEq, Prod.mk.injEq] at h
      obtain ⟨rfl, rfl, rfl⟩ := h
      obtain ⟨hge, rfl, -⟩ := next_command_ok_false hnc
      exact ⟨.nil, rfl, hge, by simp [rpPoints, countRingEnd]⟩
    · exact absurd h (by simp)
  | succ fuel ih =>
    intro s attrs evs s' attrs' h
    simp only [polyLoop] at h
    split at h
    · exact absurd h (by simp)
    · rename_i s0 hnc
      simp only [Except.ok.injEq, Prod.mk.injEq] at h
      obtain ⟨rfl, rfl, rfl⟩ := h
      obtain ⟨hge, rfl, -⟩ := next_command_ok_false hnc
      exact ⟨.nil, rfl, hge, by simp [rpPoints, countRingEnd]⟩
    · rename_i s1 hnc1
      split at h
      · exact absurd h (by simp)
      · rename_i hcnt1
        split at h
        · exact absurd h (by simp)
        · rename_i start s2 hnp
          split at h
          · exact absurd h (by simp)
          · exact absurd h (by simp)
          · rename_i s3 hnc2
            split at h
            · exact absurd h (by simp)
            · rename_i evs4 s4 sum4 last4 attrs4 hrl
              split at h
              · exact absurd h (by simp)
              · exact absurd h (by simp)
              · rename_i s5 hnc3
                split at h
                · exact absurd h (by simp)
                · rename_i evs6 s6 attrs6 hrec
                  simp only [Except.ok.injEq, Prod.mk.injEq] at h
                  obtain ⟨rfl, rfl, rfl⟩ := h
                  obtain ⟨ps4, hlen4, hchain4, hshape4, hrp4, hce4, hsum4,
                    hlast4, halen4, hglen4⟩ := ringLoop_spec conv _ _ _ _ _ _ _ _ _ _ hrl
                  obtain ⟨hshape6, halen6, hgeom6, hbound6⟩ :=
                    ih s5 attrs4 evs6 s6 attrs6 hrec
                  obtain ⟨-, c, rest, hgeq, -, hs1g, -, -, -, -, -, -⟩ :=
                    next_command_ok_true hnc1
                  obtain ⟨hnp2, -, -, -, -, -, -, -⟩ := next_point_spec hnp
                  obtain ⟨-, c2, rest2, hgeq2, -, hs3g, -, -, -, -, -, -⟩ :=
                    next_command_ok_true hnc2
                  obtain ⟨-, c3, rest3, hgeq3, -, hs5g, -, -, -, -, -, -⟩ :=
                    next_command_ok_true hnc3
                  have hshape4' : blocksShape Event.ring_point attrs.length
                      (List.map conv ps4) evs4 := by
                    rwa [stepAttrs_snd_length] at hshape4
                  have hshape6' : RingsShape conv attrs.length evs6 := by
                    rwa [halen4, stepAttrs_snd_length] at hshape6
                  have hblk : blocksShape Event.ring_point attrs.length
                      ((start :: ps4).map conv)
                      (Event.ring_point (conv start) ::
                        (stepAttrs P attrs).1 ++ evs4) :=
                    ⟨(stepAttrs P attrs).1, evs4, rfl, stepAttrs_fst_length P attrs,
                      stepAttrs_fst_attr P attrs, hshape4'⟩
                  have hsum' : sum4 + det last4 start = shoelace (start :: ps4) := by
                    rw [hsum4, hlast4]; simp [shoelace]
                  have hnil : rpPoints (stepAttrs P attrs).1 = ([] : List P) :=
                    rpPoints_of_attr (stepAttrs_fst_attr P attrs)
                  have hnilc : countRingEnd (stepAttrs P attrs).1 = 0 :=
                    countRingEnd_of_attr (stepAttrs_fst_attr P attrs)
                  have hlene : s.geom.length = rest.length + 1 := by
                    rw [hgeq]; simp
                  have hlene1 : s1.geom.length = rest.length := by rw [hs1g]
                  have hlene2 : s2.geom.length = rest2.length + 1 := by
                    rw [hgeq2]; simp
                  have hlene3 : s3.geom.length = rest2.length := by rw [hs3g]
                  have hlene4 : s4.geom.length = rest3.length + 1 := by
                    rw [hgeq3]; simp
                  have hlene5 : s5.geom.length = rest3.length := by rw [hs5g]
                  constructor
                  · have hcons := RingsShape.cons start ps4
                      (Event.ring_point (conv start) ::
                        (stepAttrs P attrs).1 ++ evs4) evs6 hblk hshape6'
                    simpa [hlen4, hsum', List.append_assoc] using hcons
                  refine ⟨by rw [halen6, halen4, stepAttrs_snd_length], hgeom6, ?_⟩
                  have hR : rpPoints
                      (Event.ring_begin (s3.count + 2) ::
                        Event.ring_point (conv start) ::
                        (stepAttrs P attrs).1 ++ evs4 ++
                        Event.ring_point (conv start) ::
                        Event.ring_end (classify (sum4 + det last4 start)) :: evs6) =
                      conv start :: (List.map conv ps4 ++
                        (conv start :: rpPoints evs6)) := by
                    simp only [rpPoints_cons_begin, rpPoints_cons_point,
                      rpPoints_append, rpPoints_cons_end, hnil, hrp4]
                    simp
                  have hC : countRingEnd
                      (Event.ring_begin (s3.count + 2) ::
                        Event.ring_point (conv start) ::
                        (stepAttrs P attrs).1 ++ evs4 ++
                        Event.ring_point (conv start) ::
                        Event.ring_end (classify (sum4 + det last4 start)) :: evs6) =
                      countRingEnd evs6 + 1 := by
                    simp only [countRingEnd_cons_begin, countRingEnd_cons_rp,
                      countRingEnd_append, countRingEnd_cons_end, hnilc, hce4]
                    omega
                  rw [hR, hC]
                  simp only [List.length_cons, List.length_append,
                    List.length_map, hlen4]
                  omega

theorem ppPoints_cons_begin {P : Type} (n : Nat) (evs : List (Event P)) :
    ppPoints (.points_begin n :: evs) = ppPoints evs := by
  simp [ppPoints]

theorem ppPoints_cons_end {P : Type} (evs : List (Event P)) :
    ppPoints (.points_end :: evs) = ppPoints evs := by
  simp [ppPoints]

theorem decode_point_inv {P : Type} {conv : UnscaledPoint → P} {maxAttrs : Nat}
    {s : DecoderState} {evs : List (Event P)} {s' : DecoderState}
    (h : decode_point conv maxAttrs s = .ok (evs, s')) :
    ∃ s1 attrs evs0 s2 attrs2,
      next_command .MOVE_TO s = .ok (true, s1) ∧
      s1.count ≠ 0 ∧
      geometric_attribute_collection maxAttrs s1.attr = .ok attrs ∧
      pointLoop conv s1.count s1 attrs = .ok (evs0, s2, attrs2) ∧
      done s2 = true ∧
      evs = .points_begin s1.count :: evs0 ++ [.points_end] ∧ s' = s2 := by
  unfold decode_point at h
  split at h
  · exact absurd h (by simp)
  · exact absurd h (by simp)
  · rename_i s1 hnc
    split at h
    · exact absurd h (by simp)
    · rename_i hcnt
      split at h
      · exact absurd h (by simp)
      · rename_i attrs hcoll
        split at h
        · exact absurd h (by simp)
        · rename_i evs0 s2 attrs2 hloop
          split at h
          · rename_i hdone
            simp only [Except.ok.injEq, Prod.mk.injEq] at h
            obtain ⟨rfl, rfl⟩ := h
            exact ⟨s1, attrs, evs0, s2, attrs2, hnc, hcnt, hcoll, hloop, hdone,
              rfl, rfl⟩
          · exact absurd h (by simp)

/-- C1: for every decode call of the point, linestring or polygon driver
with the maximum repeat count configured from the geometry-stream length
(total integer count / 2, as the public `decode_*_geometry` entry points
do), the total number of decoded vertices over the whole geometry never
exceeds that maximum (for the polygon driver the repeated closing points,
which are not decoded, are discounted); and no single accepted command
ever sets a repeat count above the configured maximum. -/
theorem C1_total_vertices_bounded :
    (∀ (P : Type) (conv : UnscaledPoint → P) (maxAttrs : Nat) (s : DecoderState)
       (evs : List (Event P)) (s' : DecoderState),
       s.maxCount = s.geom.length / 2 →
       decode_point conv maxAttrs s = .ok (evs, s') →
       (ppPoints evs).length ≤ s.maxCount) ∧
    (∀ (P : Type) (conv : UnscaledPoint → P) (maxAttrs : Nat) (s : DecoderState)
       (evs : List (Event P)) (s' : DecoderState),
       s.maxCount = s.geom.length / 2 →
       decode_linestring conv maxAttrs s = .ok (evs, s') →
       (lsPoints evs).length ≤ s.maxCount) ∧
    (∀ (P : Type) (conv : UnscaledPoint → P) (maxAttrs : Nat) (s : DecoderState)
       (evs : List (Event P)) (s' : DecoderState),
       s.maxCount = s.geom.length / 2 →
       decode_polygon conv maxAttrs s = .ok (evs, s') →
       (rpPoints evs).length - countRingEnd evs ≤ s.maxCount) ∧
    (∀ (cid : CommandId) (s s' : DecoderState),
       next_command cid s = .ok (true, s') → s'.count ≤ s.maxCount) := by
  refine ⟨?_, ?_, ?_, ?_⟩
  · intro P conv maxAttrs s evs s' hmax h
    obtain ⟨s1, attrs, evs0, s2, attrs2, hnc, hcnt, hcoll, hloop, hdone, rfl, rfl⟩ :=
      decode_point_inv h
    obtain ⟨ps, hplen, -, -, hpp, -, hglen⟩ := pointLoop_spec conv _ _ _ _ _ _ hloop
    obtain ⟨-, c, rest, hgeq, -, hs1g, -, -, -, -, -, -⟩ := next_command_ok_true hnc
    have h1 : (ppPoints (Event.points_begin s1.count :: evs0 ++
        [Event.points_end])).length = s1.count := by
      simp only [ppPoints_cons_begin, ppPoints_append, hpp]
      simp [hplen, ppPoints]
    rw [h1, hmax]
    have h2 : s.geom.length = rest.length + 1 := by rw [hgeq]; simp
    have h3 : s1.geom.length = rest.length := by rw [hs1g]
    omega
  · intro P conv maxAttrs s evs s' hmax h
    unfold decode_linestring at h
    split at h
    · exact absurd h (by simp)
    · rename_i attrs hcoll
      split at h
      · exact absurd h (by simp)
      · rename_i evs1 s1 attrs1 hloop
        simp only [Except.ok.injEq, Prod.mk.injEq] at h
        obtain ⟨rfl, rfl⟩ := h
        obtain ⟨-, -, -, hbound⟩ := lineLoop_spec conv _ _ _ _ _ _ hloop
        omega
  · intro P conv maxAttrs s evs s' hmax h
    unfold decode_polygon at h
    split at h
    · exact absurd h (by simp)
    · rename_i attrs hcoll
      split at h
      · exact absurd h (by simp)
      · rename_i evs1 s1 attrs1 hloop
        simp only [Except.ok.injEq, Prod.mk.injEq] at h
        obtain ⟨rfl, rfl⟩ := h
        obtain ⟨-, -, -, hbound⟩ := polyLoop_spec conv _ _ _ _ _ _ hloop
        omega
  · intro cid s s' h
    obtain ⟨-, c, rest, -, -, -, -, -, -, -, -, hor⟩ := next_command_ok_true h
    rcases hor with ⟨-, -, hc0⟩ | ⟨-, hc, hle⟩
    · omega
    · omega

/-- Witness for C1 at concrete accepted inputs of all three drivers and
a concrete accepted MoveTo command. -/
theorem C1_total_vertices_bounded_witness :
    (ppPoints [Event.points_begin 1,
       Event.points_point (⟨1, 1, 0⟩ : UnscaledPoint),
       Event.points_end]).length ≤ 1 ∧
    (lsPoints [Event.linestring_begin 2,
       Event.linestring_point (⟨1, 1, 0⟩ : UnscaledPoint),
       Event.linestring_point (⟨3, 3, 0⟩ : UnscaledPoint),
       Event.linestring_end]).length ≤ 3 ∧
    ((rpPoints [Event.ring_begin 5,
       Event.ring_point (⟨1, 1, 0⟩ : UnscaledPoint),
       Event.ring_point (⟨3, 1, 0⟩ : UnscaledPoint),
       Event.ring_point (⟨3, 3, 0⟩ : UnscaledPoint),
       Event.ring_point (⟨1, 3, 0⟩ : UnscaledPoint),
       Event.ring_point (⟨1, 1, 0⟩ : UnscaledPoint),
       Event.ring_end RingType.outer]).length -
      countRingEnd [Event.ring_begin 5,
       Event.ring_point (⟨1, 1, 0⟩ : UnscaledPoint),
       Event.ring_point (⟨3, 1, 0⟩ : UnscaledPoint),
       Event.ring_point (⟨3, 3, 0⟩ : UnscaledPoint),
       Event.ring_point (⟨1, 3, 0⟩ : UnscaledPoint),
       Event.ring_point (⟨1, 1, 0⟩ : UnscaledPoint),
       Event.ring_end RingType.outer]) ≤ 5 ∧
    ({ geom := [2, 2], elev := [], attr := [],
       cursor := (⟨0, 0, 0⟩ : UnscaledPoint), maxCount := 1, count := 1,
       dim := 2 } : DecoderState).count ≤ 1 :=
  ⟨C1_total_vertices_bounded.1 UnscaledPoint id 0 (initState [9, 2, 2] [] [] 1 2)
      [Event.points_begin 1, Event.points_point ⟨1, 1, 0⟩, Event.points_end]
      ⟨[], [], [], ⟨1, 1, 0⟩, 1, 0, 2⟩ rfl rfl,
   C1_total_vertices_bounded.2.1 UnscaledPoint id 0
      (initState [9, 2, 2, 10, 4, 4] [] [] 3 2)
      [Event.linestring_begin 2, Event.linestring_point ⟨1, 1, 0⟩,
       Event.linestring_point ⟨3, 3, 0⟩, Event.linestring_end]
      ⟨[], [], [], ⟨3, 3, 0⟩, 3, 0, 2⟩ rfl rfl,
   C1_total_vertices_bounded.2.2.1 UnscaledPoint id 0
      (initState [9, 2, 2, 26, 4, 0, 0, 4, 3, 0, 15] [] [] 5 2)
      [Event.ring_begin 5, Event.ring_point ⟨1, 1, 0⟩,
       Event.ring_point ⟨3, 1, 0⟩, Event.ring_point ⟨3, 3, 0⟩,
       Event.ring_point ⟨1, 3, 0⟩, Event.ring_point ⟨1, 1, 0⟩,
       Event.ring_end RingType.outer]
      ⟨[], [], [], ⟨1, 3, 0⟩, 5, 0, 2⟩ rfl rfl,
   C1_total_vertices_bounded.2.2.2 CommandId.MOVE_TO (initState [9, 2, 2] [] [] 1 2)
      ⟨[2, 2], [], [], ⟨0, 0, 0⟩, 1, 1, 2⟩ rfl⟩

theorem skipValues_exact {n : Nat} {vs : List Nat} (h : vs.length = n) :
    skipValues n vs = .ok [] := by
  induction n generalizing vs with
  | zero =>
    cases vs with
    | nil => rfl
    | cons v vs' => simp at h
  | succ n ih =>
    cases vs with
    | nil => simp at h
    | cons v vs' =>
      simp only [List.length_cons, Nat.succ.injEq] at h
      simp only [skipValues, List.tail_cons]
      split
      · rename_i hc
        exact absurd h.symm (by
          intro hh
          rcases hc with ⟨h1, h2⟩
          rw [h2] at hh
          simp at hh
          omega)
      · exact ih h

theorem skipValues_short {n : Nat} {vs : List Nat} (h1 : vs.length < n)
    (h2 : vs ≠ []) :
    skipValues n vs = .error (.format "geometric attributes end too soon") := by
  induction n generalizing vs with
  | zero => omega
  | succ n ih =>
    cases vs with
    | nil => exact absurd rfl h2
    | cons v vs' =>
      simp only [List.length_cons] at h1
      simp only [skipValues, List.tail_cons]
      split
      · rfl
      · rename_i hc
        rw [not_and_or] at hc
        rcases hc with hn | hv
        · omega
        · exact ih (by omega) hv

theorem collection_nil (slots : Nat) :
    geometric_attribute_collection slots [] = .ok [] := by
  cases slots <;> rfl

/-- C4 counterexample: an attribute stream declaring a number-list
attribute with count 0 whose cursor ends immediately after the
scaling-reference integer.  The claim says this is not an error, but the
constructor (geometry.hpp lines 237-240) checks `it == end` right after
reading the scaling integer, before looking at the count, and throws
"geometric attributes end too soon". -/
theorem C4_counterexample :
    geometric_attribute_collection 8 [10, 0, 0] =
      .error (.format "geometric attributes end too soon") := by rfl

/-- C4 (amended): exhaustion while reading the count or scaling-reference
integer is a format error; the cursor being exhausted immediately after
the scaling-reference integer is itself a format error, even when the
declared count is 0; while skipping past the declared count of raw
values, exhausting before the count is consumed is a format error,
except that exhausting exactly when the remaining count reaches zero is
accepted. -/
theorem C4_attribute_header_exhaustion :
    (∀ (slots k : Nat),
       geometric_attribute_collection (slots + 1) [16 * k + 10] =
         .error (.format "geometric attributes end too soon")) ∧
    (∀ (slots k n : Nat),
       geometric_attribute_collection (slots + 1) [16 * k + 10, n] =
         .error (.format "geometric attributes end too soon")) ∧
    (∀ (slots k n sca : Nat),
       geometric_attribute_collection (slots + 1) [16 * k + 10, n, sca] =
         .error (.format "geometric attributes end too soon")) ∧
    (∀ (slots k n sca : Nat) (vs : List Nat), vs.length = n → 0 < n →
       geometric_attribute_collection (slots + 1)
           ((16 * k + 10) :: n :: sca :: vs) =
         .ok [⟨vs, k, sca, n, 0⟩]) ∧
    (∀ (slots k n sca : Nat) (vs : List Nat), vs.length < n → vs ≠ [] →
       geometric_attribute_collection (slots + 1)
           ((16 * k + 10) :: n :: sca :: vs) =
         .error (.format "geometric attributes end too soon")) := by
  have hm : ∀ k : Nat, (16 * k + 10) % 16 = 10 := fun k => by omega
  have hd : ∀ k : Nat, (16 * k + 10) / 16 = k := fun k => by omega
  refine ⟨?_, ?_, ?_, ?_, ?_⟩
  · intro slots k
    simp [geometric_attribute_collection, hm k]
  · intro slots k n
    simp [geometric_attribute_collection, hm k]
  · intro slots k n sca
    simp [geometric_attribute_collection, hm k]
  · intro slots k n sca vs hlen hn
    have hvs : vs ≠ [] := by
      intro hh
      rw [hh] at hlen
      simp at hlen
      omega
    simp [geometric_attribute_collection, hm k, hd k, hvs,
      skipValues_exact hlen, collection_nil]
  · intro slots k n sca vs hlen hvs
    simp [geometric_attribute_collection, hm k, hvs,
      skipValues_short hlen hvs]

/-- Witness for the amended C4: a count-0 attribute whose stream ends
after the scaling integer is rejected, and a count-2 attribute followed
by exactly its two raw values is accepted. -/
theorem C4_attribute_header_exhaustion_witness :
    geometric_attribute_collection 8 [10, 0, 0] =
      .error (.format "geometric attributes end too soon") ∧
    geometric_attribute_collection 8 [26, 2, 3, 4, 5] =
      .ok [⟨[4, 5], 1, 3, 2, 0⟩] :=
  ⟨C4_attribute_header_exhaustion.2.2.1 7 0 0 0,
   C4_attribute_header_exhaustion.2.2.2.1 7 1 2 3 [4, 5] rfl (by decide)⟩

/-- C9: a ClosePath command word whose decoded count is not exactly 1 is
rejected by `next_command` with a structural error (this is the only
path any driver uses to consume a ClosePath word), and `next_command`
with expected id ClosePath succeeds only when the decoded count equals 1
(leaving the repeat count at 0). -/
theorem C9_close_path_count :
    (∀ (s : DecoderState) (c : Nat) (rest : List Nat),
       s.count = 0 → s.geom = c :: rest → get_command_id c = 7 →
       get_command_count c ≠ 1 →
       next_command .CLOSE_PATH s =
         .error (.geometry "ClosePath command count is not 1")) ∧
    (∀ (s s' : DecoderState), next_command .CLOSE_PATH s = .ok (true, s') →
       ∃ c rest, s.geom = c :: rest ∧ get_command_count c = 1 ∧
         s' = { s with geom := rest }) := by
  constructor
  · intro s c rest hc hg hid hcnt
    unfold next_command
    rw [hg]
    simp [hc, hid, CommandId.toNat, hcnt]
  · intro s s' h
    obtain ⟨hc0, c, rest, hg, hid, hgr, he, ha, hcur, hmax, hdim, hor⟩ :=
      next_command_ok_true h
    rcases hor with ⟨-, hcnt, hcount⟩ | ⟨hne, -, -⟩
    · refine ⟨c, rest, hg, hcnt, ?_⟩
      cases s'
      simp_all
    · exact absurd rfl hne

/-- Witness for C9: the word 23 encodes ClosePath (23 mod 8 = 7) with
count 2 (23 / 8 = 2) and is rejected; the word 15 encodes ClosePath with
count 1 and is accepted. -/
theorem C9_close_path_count_witness :
    next_command .CLOSE_PATH (initState [23] [] [] 5 2) =
      .error (.geometry "ClosePath command count is not 1") ∧
    ∃ c rest, (initState [15] [] [] 5 2).geom = c :: rest ∧
      get_command_count c = 1 ∧
      ({ geom := [], elev := [], attr := [],
         cursor := (⟨0, 0, 0⟩ : UnscaledPoint), maxCount := 5, count := 0,
         dim := 2 } : DecoderState) =
        { initState [15] [] [] 5 2 with geom := rest } :=
  ⟨C9_close_path_count.1 (initState [23] [] [] 5 2) 23 [] rfl rfl rfl (by decide),
   C9_close_path_count.2 (initState [15] [] [] 5 2) _ rfl⟩

/-- C5: `get_next_value` returns false (with the attribute unchanged, so
permanently) once the remaining count is 0; otherwise it consumes one
raw value and decrements the count, a raw 0 returning false without
touching the accumulated value, and a nonzero raw adding
zigzag(raw - 1) to the accumulated value and returning true; in the
drivers' attribute pass a false return produces exactly one
`attribute_null(key_index)` callback for that attribute at that
vertex. -/
theorem C5_get_next_value :
    (∀ a : GeometricAttribute, a.count = 0 → a.get_next_value = (false, a)) ∧
    (∀ (a : GeometricAttribute) (r : Nat) (it' : List Nat),
       a.count ≠ 0 → a.it = r :: it' → r = 0 →
       a.get_next_value =
         (false, { a with it := it', count := a.count - 1 })) ∧
    (∀ (a : GeometricAttribute) (r : Nat) (it' : List Nat),
       a.count ≠ 0 → a.it = r :: it' → r ≠ 0 →
       a.get_next_value =
         (true, (⟨it', a.key_index, a.scaling_index, a.count - 1,
                  a.value + decode_zigzag64 (r - 1)⟩ : GeometricAttribute))) ∧
    (∀ (P : Type) (a a' : GeometricAttribute)
       (rest : List GeometricAttribute),
       a.get_next_value = (false, a') →
       stepAttrs P (a :: rest) =
         (.attr_null a.key_index :: (stepAttrs P rest).1,
          a' :: (stepAttrs P rest).2)) := by
  refine ⟨?_, ?_, ?_, ?_⟩
  · intro a hc
    simp [GeometricAttribute.get_next_value, hc]
  · intro a r it' hc hit hr
    simp [GeometricAttribute.get_next_value, hc, hit, hr]
  · intro a r it' hc hit hr
    simp [GeometricAttribute.get_next_value, hc, hit, hr]
  · intro P a a' rest h
    have hk : a'.key_index = a.key_index := by
      unfold GeometricAttribute.get_next_value at h
      split at h
      · simp only [Prod.mk.injEq] at h
        rw [← h.2]
      · dsimp only at h
        split at h
        · simp only [Prod.mk.injEq] at h
          rw [← h.2]
        · simp at h
    simp [stepAttrs, h, hk]

/-- Witness for C5 at a concrete attribute: count 0 is permanent null;
raw 0 consumes the value, keeps the accumulator and yields one
`attr_null`; raw 5 adds zigzag(4) = 2. -/
theorem C5_get_next_value_witness :
    GeometricAttribute.get_next_value ⟨[3], 4, 1, 0, 7⟩ =
      (false, ⟨[3], 4, 1, 0, 7⟩) ∧
    GeometricAttribute.get_next_value ⟨[0, 3], 4, 1, 2, 7⟩ =
      (false, ⟨[3], 4, 1, 1, 7⟩) ∧
    GeometricAttribute.get_next_value ⟨[5, 3], 4, 1, 2, 7⟩ =
      (true, ⟨[3], 4, 1, 1, 9⟩) ∧
    stepAttrs UnscaledPoint [⟨[0, 3], 4, 1, 2, 7⟩] =
      ([.attr_null 4], [⟨[3], 4, 1, 1, 7⟩]) :=
  ⟨C5_get_next_value.1 ⟨[3], 4, 1, 0, 7⟩ rfl,
   C5_get_next_value.2.1 ⟨[0, 3], 4, 1, 2, 7⟩ 0 [3] (by decide) rfl rfl,
   C5_get_next_value.2.2.1 ⟨[5, 3], 4, 1, 2, 7⟩ 5 [3] (by decide) rfl (by decide),
   C5_get_next_value.2.2.2 UnscaledPoint ⟨[0, 3], 4, 1, 2, 7⟩ ⟨[3], 4, 1, 1, 7⟩
     [] rfl⟩

/-- C7: `done` is true exactly when both the geometry and the elevation
cursors are exhausted; after the point driver consumes the single MoveTo
command's points, a false `done` makes the decode fail with the
structural error "additional data after end of geometry"; consequently
every accepted point decode ends with both cursors exhausted. -/
theorem C7_point_trailing_data :
    (∀ s : DecoderState, done s = true ↔ (s.geom = [] ∧ s.elev = [])) ∧
    (∀ (P : Type) (conv : UnscaledPoint → P) (maxAttrs : Nat)
       (s s1 : DecoderState) (attrs attrs2 : List GeometricAttribute)
       (evs0 : List (Event P)) (s2 : DecoderState),
       next_command .MOVE_TO s = .ok (true, s1) →
       s1.count ≠ 0 →
       geometric_attribute_collection maxAttrs s1.attr = .ok attrs →
       pointLoop conv s1.count s1 attrs = .ok (evs0, s2, attrs2) →
       done s2 = false →
       decode_point conv maxAttrs s =
         .error (.geometry "additional data after end of geometry")) ∧
    (∀ (P : Type) (conv : UnscaledPoint → P) (maxAttrs : Nat)
       (s : DecoderState) (evs : List (Event P)) (s' : DecoderState),
       decode_point conv maxAttrs s = .ok (evs, s') →
       s'.geom = [] ∧ s'.elev = []) := by
  have hdone : ∀ s : DecoderState, done s = true ↔ (s.geom = [] ∧ s.elev = []) := by
    intro s
    cases hg : s.geom <;> cases he : s.elev <;> simp [done, hg, he]
  refine ⟨hdone, ?_, ?_⟩
  · intro P conv maxAttrs s s1 attrs attrs2 evs0 s2 hnc hcnt hcoll hloop hd
    unfold decode_point
    simp [hnc, hcnt, hcoll, hloop, hd]
  · intro P conv maxAttrs s evs s' h
    obtain ⟨s1, attrs, evs0, s2, attrs2, -, -, -, -, hd, -, rfl⟩ :=
      decode_point_inv h
    exact (hdone _).mp hd

/-- Witness for C7: a point geometry stream with a trailing integer 99
after the MoveTo points is rejected; an exact stream is accepted and
ends with both cursors exhausted. -/
theorem C7_point_trailing_data_witness :
    decode_point (P := UnscaledPoint) id 0 (initState [9, 2, 2, 99] [] [] 3 2) =
      .error (.geometry "additional data after end of geometry") ∧
    (({ geom := [], elev := [], attr := [],
        cursor := (⟨1, 1, 0⟩ : UnscaledPoint), maxCount := 1, count := 0,
        dim := 2 } : DecoderState).geom = [] ∧
     ({ geom := [], elev := [], attr := [],
        cursor := (⟨1, 1, 0⟩ : UnscaledPoint), maxCount := 1, count := 0,
        dim := 2 } : DecoderState).elev = []) :=
  ⟨C7_point_trailing_data.2.1 UnscaledPoint id 0 (initState [9, 2, 2, 99] [] [] 3 2)
      ⟨[2, 2, 99], [], [], ⟨0, 0, 0⟩, 3, 1, 2⟩ [] []
      [Event.points_point ⟨1, 1, 0⟩] ⟨[99], [], [], ⟨1, 1, 0⟩, 3, 0, 2⟩
      rfl (by decide) rfl rfl rfl,
   C7_point_trailing_data.2.2 UnscaledPoint id 0 (initState [9, 2, 2] [] [] 1 2)
      [Event.points_begin 1, Event.points_point ⟨1, 1, 0⟩, Event.points_end]
      ⟨[], [], [], ⟨1, 1, 0⟩, 1, 0, 2⟩ rfl⟩

theorem classify_spec (z : Int) :
    (classify z = .outer ↔ 0 < z) ∧ (classify z = .inner ↔ z < 0) ∧
    (classify z = .invalid ↔ z = 0) := by
  unfold classify
  split_ifs with h1 h2 <;>
    refine ⟨?_, ?_, ?_⟩ <;> constructor <;> intro hh <;>
      first
      | rfl
      | omega
      | (exfalso; omega)
      | simp at hh

/-- C2: for an accepted run of the polygon driver's interior-point loop
(`ringLoop`, the `while (count() > 0)` loop of `decode_polygon`) started
with sum 0 at the ring's decoded start point, the value the driver then
passes to classification after ClosePath, `sum + det last start` (see
`polyLoop`), equals the shoelace sum of the decoded ring vertex
sequence: the running 2D cross-product sum over consecutive interior
points plus the cross product between the last interior point and the
start point, i.e. twice the ring's signed area, computed exactly over
`Int` (the model of the exact 64-bit arithmetic on the 32-bit
coordinates). -/
theorem C2_ring_sum_is_shoelace {P : Type} (conv : UnscaledPoint → P)
    (n : Nat) (s : DecoderState) (start : UnscaledPoint)
    (attrs : List GeometricAttribute) (evs : List (Event P))
    (s' : DecoderState) (sum : Int) (last : UnscaledPoint)
    (attrs' : List GeometricAttribute)
    (h : ringLoop conv n s 0 start attrs = .ok (evs, s', sum, last, attrs')) :
    ∃ ps : List UnscaledPoint,
      decodedChain s ps ∧ rpPoints evs = ps.map conv ∧
      sum + det last start = shoelace (start :: ps) := by
  obtain ⟨ps, -, hchain, -, hrp, -, hsum, hlast, -, -⟩ :=
    ringLoop_spec conv _ _ _ _ _ _ _ _ _ _ h
  refine ⟨ps, hchain, hrp, ?_⟩
  rw [hsum, hlast]
  simp [shoelace]

/-- Witness for C2: the interior loop of a unit-square ring starting at
(1,1) with the three interior points (3,1), (3,3), (1,3). -/
theorem C2_ring_sum_is_shoelace_witness :
    ∃ ps : List UnscaledPoint,
      decodedChain
        (⟨[4, 0, 0, 4, 3, 0, 15], [], [], ⟨1, 1, 0⟩, 5, 3, 2⟩ : DecoderState)
        ps ∧
      rpPoints [Event.ring_point (⟨3, 1, 0⟩ : UnscaledPoint),
        Event.ring_point (⟨3, 3, 0⟩ : UnscaledPoint),
        Event.ring_point (⟨1, 3, 0⟩ : UnscaledPoint)] = ps.map id ∧
      (10 : Int) + det ⟨1, 3, 0⟩ ⟨1, 1, 0⟩ = shoelace (⟨1, 1, 0⟩ :: ps) :=
  C2_ring_sum_is_shoelace id 3
    ⟨[4, 0, 0, 4, 3, 0, 15], [], [], ⟨1, 1, 0⟩, 5, 3, 2⟩ ⟨1, 1, 0⟩ []
    [Event.ring_point ⟨3, 1, 0⟩, Event.ring_point ⟨3, 3, 0⟩,
     Event.ring_point ⟨1, 3, 0⟩]
    ⟨[15], [], [], ⟨1, 3, 0⟩, 5, 0, 2⟩ 10 ⟨1, 3, 0⟩ [] rfl

/-- C3: every accepted polygon decode's trace is a sequence of rings in
which the first and the last `ring_point` payloads are both the
converted start point (hence equal), and `ring_end` receives `classify`
of the shoelace sum of the ring's decoded vertex sequence before
closing; and `classify` maps a sum to Outer iff it is positive, to
Inner iff it is negative and to Invalid iff it is exactly zero. -/
theorem C3_ring_closed_and_classified :
    (∀ (P : Type) (conv : UnscaledPoint → P) (maxAttrs : Nat)
       (s : DecoderState) (evs : List (Event P)) (s' : DecoderState),
       decode_polygon conv maxAttrs s = .ok (evs, s') →
       ∃ attrs, geometric_attribute_collection maxAttrs s.attr = .ok attrs ∧
         RingsShape conv attrs.length evs) ∧
    (∀ z : Int, (classify z = .outer ↔ 0 < z) ∧
       (classify z = .inner ↔ z < 0) ∧ (classify z = .invalid ↔ z = 0)) := by
  constructor
  · intro P conv maxAttrs s evs s' h
    unfold decode_polygon at h
    split at h
    · exact absurd h (by simp)
    · rename_i attrs hcoll
      split at h
      · exact absurd h (by simp)
      · rename_i evs1 s1 attrs1 hloop
        simp only [Except.ok.injEq, Prod.mk.injEq] at h
        obtain ⟨rfl, rfl⟩ := h
        exact ⟨attrs, hcoll, (polyLoop_spec conv _ _ _ _ _ _ hloop).1⟩
  · exact classify_spec

/-- Witness for C3: the square polygon stream and the classification of
the sum 8. -/
theorem C3_ring_closed_and_classified_witness :
    (∃ attrs, geometric_attribute_collection 0
        (initState [9, 2, 2, 26, 4, 0, 0, 4, 3, 0, 15] [] [] 5 2).attr =
          .ok attrs ∧
      RingsShape id attrs.length
        [Event.ring_begin 5, Event.ring_point (⟨1, 1, 0⟩ : UnscaledPoint),
         Event.ring_point (⟨3, 1, 0⟩ : UnscaledPoint),
         Event.ring_point (⟨3, 3, 0⟩ : UnscaledPoint),
         Event.ring_point (⟨1, 3, 0⟩ : UnscaledPoint),
         Event.ring_point (⟨1, 1, 0⟩ : UnscaledPoint),
         Event.ring_end RingType.outer]) ∧
    (classify 8 = .outer ↔ (0 : Int) < 8) :=
  ⟨C3_ring_closed_and_classified.1 UnscaledPoint id 0
      (initState [9, 2, 2, 26, 4, 0, 0, 4, 3, 0, 15] [] [] 5 2)
      [Event.ring_begin 5, Event.ring_point ⟨1, 1, 0⟩,
       Event.ring_point ⟨3, 1, 0⟩, Event.ring_point ⟨3, 3, 0⟩,
       Event.ring_point ⟨1, 3, 0⟩, Event.ring_point ⟨1, 1, 0⟩,
       Event.ring_end RingType.outer]
      ⟨[], [], [], ⟨1, 3, 0⟩, 5, 0, 2⟩ rfl,
   (C3_ring_closed_and_classified.2 8).1⟩

theorem next_command_eval {i : CommandId} (hne : i ≠ .CLOSE_PATH)
    {s : DecoderState} {c : Nat} {rest : List Nat}
    (hc : s.count = 0) (hg : s.geom = c :: rest)
    (hid : get_command_id c = i.toNat)
    (hmax : get_command_count c ≤ s.maxCount) :
    next_command i s =
      .ok (true, { s with geom := rest, count := get_command_count c }) := by
  unfold next_command
  rw [hg]
  simp [hc, hid, hne, Nat.not_lt.mpr hmax]

theorem next_command_eval_empty (cid : CommandId) {s : DecoderState}
    (hg : s.geom = []) (hc : s.count = 0) :
    next_command cid s = .ok (false, s) := by
  unfold next_command
  rw [hg]
  simp [hc]

theorem next_point_eval2 {s : DecoderState} {gx gy : Nat} {r : List Nat}
    (hc : s.count ≠ 0) (hg : s.geom = gx :: gy :: r) (hdim : s.dim = 2) :
    next_point s =
      .ok (⟨s.cursor.x + decode_zigzag32 gx,
            s.cursor.y + decode_zigzag32 gy, s.cursor.z⟩,
        { s with geom := r,
                 cursor := ⟨s.cursor.x + decode_zigzag32 gx,
                            s.cursor.y + decode_zigzag32 gy, s.cursor.z⟩,
                 count := s.count - 1 }) := by
  unfold next_point
  rw [hg, hdim]
  simp [hc]

/-- C6: every accepted point decode emits exactly one
`points_begin(c)` with `c` the MoveTo command's decoded count, then
exactly `c` blocks, each a `points_point` with the converted decoded
point (the points are the successive `next_point` results from the
state after the MoveTo) followed by exactly one attribute callback per
registered attribute, then exactly one `points_end`, in that order. -/
theorem C6_point_driver_trace {P : Type} (conv : UnscaledPoint → P)
    (maxAttrs : Nat) (s : DecoderState) (evs : List (Event P))
    (s' : DecoderState)
    (h : decode_point conv maxAttrs s = .ok (evs, s')) :
    ∃ (g0 : Nat) (grest : List Nat) (s1 : DecoderState)
      (attrs : List GeometricAttribute) (ps : List UnscaledPoint)
      (mid : List (Event P)),
      s.geom = g0 :: grest ∧ get_command_id g0 = 1 ∧
      next_command .MOVE_TO s = .ok (true, s1) ∧
      s1.count = get_command_count g0 ∧ 0 < s1.count ∧
      geometric_attribute_collection maxAttrs s.attr = .ok attrs ∧
      ps.length = s1.count ∧
      decodedChain s1 ps ∧
      blocksShape Event.points_point attrs.length (ps.map conv) mid ∧
      evs = .points_begin s1.count :: mid ++ [.points_end] := by
  obtain ⟨s1, attrs, evs0, s2, attrs2, hnc, hcnt, hcoll, hloop, hdone, rfl, rfl⟩ :=
    decode_point_inv h
  obtain ⟨-, c, rest, hg, hid, -, -, ha, -, -, -, hor⟩ := next_command_ok_true hnc
  rcases hor with ⟨hcp, -, -⟩ | ⟨-, hcount, -⟩
  · exact absurd hcp (by decide)
  · obtain ⟨ps, hplen, hchain, hshape, -, -, -⟩ :=
      pointLoop_spec conv _ _ _ _ _ _ hloop
    rw [ha] at hcoll
    exact ⟨c, rest, s1, attrs, ps, evs0, hg,
      by simpa [CommandId.toNat] using hid, hnc, hcount, by omega, hcoll,
      by omega, hchain, hshape, rfl⟩

/-- Witness for C6: a point geometry with two points and one registered
geometric attribute. -/
theorem C6_point_driver_trace_witness :
    ∃ (g0 : Nat) (grest : List Nat) (s1 : DecoderState)
      (attrs : List GeometricAttribute) (ps : List UnscaledPoint)
      (mid : List (Event UnscaledPoint)),
      (initState [17, 10, 10, 1, 4] [] [10, 2, 7, 3, 0] 2 2).geom =
        g0 :: grest ∧
      get_command_id g0 = 1 ∧
      next_command .MOVE_TO (initState [17, 10, 10, 1, 4] [] [10, 2, 7, 3, 0] 2 2) =
        .ok (true, s1) ∧
      s1.count = get_command_count g0 ∧ 0 < s1.count ∧
      geometric_attribute_collection 8
          (initState [17, 10, 10, 1, 4] [] [10, 2, 7, 3, 0] 2 2).attr =
        .ok attrs ∧
      ps.length = s1.count ∧
      decodedChain s1 ps ∧
      blocksShape Event.points_point attrs.length (ps.map id) mid ∧
      [Event.points_begin 2,
       Event.points_point (⟨5, 5, 0⟩ : UnscaledPoint),
       Event.attr_value 0 7 1,
       Event.points_point (⟨4, 7, 0⟩ : UnscaledPoint),
       Event.attr_null 0,
       Event.points_end] =
        Event.points_begin s1.count :: mid ++ [Event.points_end] :=
  C6_point_driver_trace id 8 (initState [17, 10, 10, 1, 4] [] [10, 2, 7, 3, 0] 2 2)
    [Event.points_begin 2, Event.points_point ⟨5, 5, 0⟩,
     Event.attr_value 0 7 1, Event.points_point ⟨4, 7, 0⟩,
     Event.attr_null 0, Event.points_end]
    ⟨[], [], [10, 2, 7, 3, 0], ⟨4, 7, 0⟩, 2, 0, 2⟩ rfl

/-- C8: the linestring driver loops while a MoveTo is present — an
exhausted geometry cursor is normal termination, not an error; a MoveTo
whose count is not exactly 1, a missing LineTo after the start point,
and a LineTo with count 0 each raise a structural error (stated for the
2-dimensional decoder that the public entry points instantiate); and
every accepted decode's trace is a concatenation of
`linestring_begin(1 + LineTo count)` / points / `linestring_end` blocks,
each with at least 2 points and one attribute callback per registered
attribute after every point, one block per MoveTo/LineTo pair. -/
theorem C8_linestring_driver :
    (∀ (P : Type) (conv : UnscaledPoint → P) (maxAttrs : Nat)
       (s : DecoderState) (attrs : List GeometricAttribute),
       s.geom = [] → s.count = 0 →
       geometric_attribute_collection maxAttrs s.attr = .ok attrs →
       decode_linestring conv maxAttrs s = .ok ([], s)) ∧
    (∀ (P : Type) (conv : UnscaledPoint → P) (maxAttrs : Nat)
       (s : DecoderState) (attrs : List GeometricAttribute)
       (g0 : Nat) (grest : List Nat),
       s.count = 0 → s.geom = g0 :: grest → get_command_id g0 = 1 →
       get_command_count g0 ≤ s.maxCount → get_command_count g0 ≠ 1 →
       geometric_attribute_collection maxAttrs s.attr = .ok attrs →
       decode_linestring conv maxAttrs s =
         .error (.geometry "MoveTo command count is not 1")) ∧
    (∀ (P : Type) (conv : UnscaledPoint → P) (maxAttrs : Nat)
       (s : DecoderState) (attrs : List GeometricAttribute) (g0 gx gy : Nat),
       s.count = 0 → s.geom = [g0, gx, gy] → get_command_id g0 = 1 →
       get_command_count g0 = 1 → 1 ≤ s.maxCount → s.dim = 2 →
       geometric_attribute_collection maxAttrs s.attr = .ok attrs →
       decode_linestring conv maxAttrs s =
         .error (.geometry "expected LineTo command")) ∧
    (∀ (P : Type) (conv : UnscaledPoint → P) (maxAttrs : Nat)
       (s : DecoderState) (attrs : List GeometricAttribute)
       (g0 gx gy g1 : Nat) (grest : List Nat),
       s.count = 0 → s.geom = g0 :: gx :: gy :: g1 :: grest →
       get_command_id g0 = 1 → get_command_count g0 = 1 → 1 ≤ s.maxCount →
       s.dim = 2 → get_command_id g1 = 2 → get_command_count g1 = 0 →
       geometric_attribute_collection maxAttrs s.attr = .ok attrs →
       decode_linestring conv maxAttrs s =
         .error (.geometry "LineTo command count is zero")) ∧
    (∀ (P : Type) (conv : UnscaledPoint → P) (maxAttrs : Nat)
       (s : DecoderState) (evs : List (Event P)) (s' : DecoderState),
       decode_linestring conv maxAttrs s = .ok (evs, s') →
       ∃ attrs, geometric_attribute_collection maxAttrs s.attr = .ok attrs ∧
         LsShape attrs.length evs) := by
  refine ⟨?_, ?_, ?_, ?_, ?_⟩
  · intro P conv maxAttrs s attrs hg hc hcoll
    have hnc := next_command_eval_empty .MOVE_TO hg hc
    unfold decode_linestring
    rw [hcoll, hg]
    simp [lineLoop, hnc]
  · intro P conv maxAttrs s attrs g0 grest hc hg hid hmax hcnt hcoll
    have hfuel : s.geom.length = grest.length + 1 := by rw [hg]; rfl
    have hnc := next_command_eval (i := .MOVE_TO) (by decide) hc hg
      (by simpa [CommandId.toNat] using hid) hmax
    unfold decode_linestring
    rw [hcoll, hfuel]
    simp only [lineLoop, hnc]
    simp [hcnt]
  · intro P conv maxAttrs s attrs g0 gx gy hc hg hid hcnt hmax hdim hcoll
    have hfuel : s.geom.length = 2 + 1 := by rw [hg]; rfl
    have hnc := next_command_eval (i := .MOVE_TO) (by decide) hc hg
      (by simpa [CommandId.toNat] using hid) (by omega)
    rw [hcnt] at hnc
    have hnp := next_point_eval2
      (s := { s with geom := [gx, gy], count := 1 }) (r := [])
      (by simp) rfl hdim
    have hnc2 : ∀ s2 : DecoderState, s2.geom = [] → s2.count = 0 →
        next_command .LINE_TO s2 = .ok (false, s2) := fun s2 h1 h2 =>
      next_command_eval_empty .LINE_TO h1 h2
    unfold decode_linestring
    rw [hcoll, hfuel]
    simp only [lineLoop, hnc]
    simp [hnp, hnc2]
  · intro P conv maxAttrs s attrs g0 gx gy g1 grest hc hg hid hcnt hmax hdim
      hid1 hcnt1 hcoll
    have hfuel : s.geom.length = grest.length + 3 + 1 := by
      rw [hg]; simp
    have hnc := next_command_eval (i := .MOVE_TO) (by decide) hc hg
      (by simpa [CommandId.toNat] using hid) (by omega)
    rw [hcnt] at hnc
    have hnp := next_point_eval2
      (s := { s with geom := gx :: gy :: g1 :: grest, count := 1 })
      (r := g1 :: grest) (by simp) rfl hdim
    have hnc2 := next_command_eval (i := .LINE_TO)
      (s := { s with
        geom := g1 :: grest,
        cursor := ⟨s.cursor.x + decode_zigzag32 gx,
                   s.cursor.y + decode_zigzag32 gy, s.cursor.z⟩,
        count := 1 - 1 })
      (by decide) rfl rfl (by simpa [CommandId.toNat] using hid1) (by omega)
    dsimp only at hnp hnc2
    simp only [Nat.sub_self] at hnp hnc2
    unfold decode_linestring
    rw [hcoll, hfuel]
    simp only [lineLoop, hnc]
    simp [hnp, hnc2, hcnt1]
  · intro P conv maxAttrs s evs s' h
    unfold decode_linestring at h
    split at h
    · exact absurd h (by simp)
    · rename_i attrs hcoll
      split at h
      · exact absurd h (by simp)
      · rename_i evs1 s1 attrs1 hloop
        simp only [Except.ok.injEq, Prod.mk.injEq] at h
        obtain ⟨rfl, rfl⟩ := h
        exact ⟨attrs, hcoll, (lineLoop_spec conv _ _ _ _ _ _ hloop).1⟩

/-- Witness for C8: an empty stream terminates normally; MoveTo count 2
(word 17), a stream ending before the LineTo, and a LineTo with count 0
(word 2) are each rejected; a two-linestring stream is accepted with the
block shape. -/
theorem C8_linestring_driver_witness :
    decode_linestring (P := UnscaledPoint) id 0 (initState [] [] [] 0 2) =
      .ok ([], initState [] [] [] 0 2) ∧
    decode_linestring (P := UnscaledPoint) id 0 (initState [17] [] [] 2 2) =
      .error (.geometry "MoveTo command count is not 1") ∧
    decode_linestring (P := UnscaledPoint) id 0 (initState [9, 2, 2] [] [] 1 2) =
      .error (.geometry "expected LineTo command") ∧
    decode_linestring (P := UnscaledPoint) id 0 (initState [9, 2, 2, 2] [] [] 1 2) =
      .error (.geometry "LineTo command count is zero") ∧
    ∃ attrs, geometric_attribute_collection 0
        (initState [9, 2, 2, 10, 4, 4, 9, 1, 1, 10, 2, 2] [] [] 6 2).attr =
          .ok attrs ∧
      LsShape attrs.length
        [Event.linestring_begin 2,
         Event.linestring_point (⟨1, 1, 0⟩ : UnscaledPoint),
         Event.linestring_point (⟨3, 3, 0⟩ : UnscaledPoint),
         Event.linestring_end,
         Event.linestring_begin 2,
         Event.linestring_point (⟨2, 2, 0⟩ : UnscaledPoint),
         Event.linestring_point (⟨3, 3, 0⟩ : UnscaledPoint),
         Event.linestring_end] :=
  ⟨C8_linestring_driver.1 UnscaledPoint id 0 (initState [] [] [] 0 2) [] rfl rfl rfl,
   C8_linestring_driver.2.1 UnscaledPoint id 0 (initState [17] [] [] 2 2) [] 17 []
     rfl rfl (by decide) (by decide) (by decide) rfl,
   C8_linestring_driver.2.2.1 UnscaledPoint id 0 (initState [9, 2, 2] [] [] 1 2) []
     9 2 2 rfl rfl (by decide) (by decide) (by decide) rfl rfl,
   C8_linestring_driver.2.2.2.1 UnscaledPoint id 0 (initState [9, 2, 2, 2] [] [] 1 2)
     [] 9 2 2 2 [] rfl rfl (by decide) (by decide) (by decide) rfl (by decide)
     (by decide) rfl,
   C8_linestring_driver.2.2.2.2 UnscaledPoint id 0
     (initState [9, 2, 2, 10, 4, 4, 9, 1, 1, 10, 2, 2] [] [] 6 2)
     [Event.linestring_begin 2, Event.linestring_point ⟨1, 1, 0⟩,
      Event.linestring_point ⟨3, 3, 0⟩, Event.linestring_end,
      Event.linestring_begin 2, Event.linestring_point ⟨2, 2, 0⟩,
      Event.linestring_point ⟨3, 3, 0⟩, Event.linestring_end]
     ⟨[], [], [], ⟨3, 3, 0⟩, 6, 0, 2⟩ rfl⟩

/-- C10: within one decode call the coordinate cursor is never reset
between sub-geometries and the geometric-attribute readers are built
once and carry across sub-geometry boundaries.  Stated schematically
for a two-linestring and a two-ring geometry with arbitrary
zigzag-encoded deltas `a`..`h`: the first point of the second
linestring/ring is the last decoded point of the first plus its own
zigzag-decoded deltas (only the fresh call starts at (0,0,0)), and the
attribute reader threading one declared count-4 attribute with raw
values 3, 0, 5, 2 keeps its remaining count and running accumulator
across the boundary (values 1, null, 1+2=3, 3-1=2). -/
theorem C10_cursor_and_attributes_carry_across (a b c d e f g h : Nat) :
    decode_linestring (P := UnscaledPoint) id 8
        (initState [9, a, b, 10, c, d, 9, e, f, 10, g, h] []
          [10, 4, 7, 3, 0, 5, 2] 6 2) =
      .ok ([.linestring_begin 2,
            .linestring_point
              ⟨0 + decode_zigzag32 a, 0 + decode_zigzag32 b, 0⟩,
            .attr_value 0 7 1,
            .linestring_point
              ⟨0 + decode_zigzag32 a + decode_zigzag32 c,
               0 + decode_zigzag32 b + decode_zigzag32 d, 0⟩,
            .attr_null 0,
            .linestring_end,
            .linestring_begin 2,
            .linestring_point
              ⟨0 + decode_zigzag32 a + decode_zigzag32 c + decode_zigzag32 e,
               0 + decode_zigzag32 b + decode_zigzag32 d + decode_zigzag32 f,
               0⟩,
            .attr_value 0 7 3,
            .linestring_point
              ⟨0 + decode_zigzag32 a + decode_zigzag32 c + decode_zigzag32 e +
                 decode_zigzag32 g,
               0 + decode_zigzag32 b + decode_zigzag32 d + decode_zigzag32 f +
                 decode_zigzag32 h, 0⟩,
            .attr_value 0 7 2,
            .linestring_end],
           ⟨[], [], [10, 4, 7, 3, 0, 5, 2],
            ⟨0 + decode_zigzag32 a + decode_zigzag32 c + decode_zigzag32 e +
               decode_zigzag32 g,
             0 + decode_zigzag32 b + decode_zigzag32 d + decode_zigzag32 f +
               decode_zigzag32 h, 0⟩,
            6, 0, 2⟩) ∧
    decode_polygon (P := UnscaledPoint) id 8
        (initState [9, a, b, 10, c, d, 15, 9, e, f, 10, g, h, 15] [] [] 7 2) =
      .ok ([.ring_begin 3,
            .ring_point ⟨0 + decode_zigzag32 a, 0 + decode_zigzag32 b, 0⟩,
            .ring_point
              ⟨0 + decode_zigzag32 a + decode_zigzag32 c,
               0 + decode_zigzag32 b + decode_zigzag32 d, 0⟩,
            .ring_point ⟨0 + decode_zigzag32 a, 0 + decode_zigzag32 b, 0⟩,
            .ring_end (classify
              (0 + det ⟨0 + decode_zigzag32 a, 0 + decode_zigzag32 b, 0⟩
                  ⟨0 + decode_zigzag32 a + decode_zigzag32 c,
                   0 + decode_zigzag32 b + decode_zigzag32 d, 0⟩ +
               det ⟨0 + decode_zigzag32 a + decode_zigzag32 c,
                    0 + decode_zigzag32 b + decode_zigzag32 d, 0⟩
                  ⟨0 + decode_zigzag32 a, 0 + decode_zigzag32 b, 0⟩)),
            .ring_begin 3,
            .ring_point
              ⟨0 + decode_zigzag32 a + decode_zigzag32 c + decode_zigzag32 e,
               0 + decode_zigzag32 b + decode_zigzag32 d + decode_zigzag32 f,
               0⟩,
            .ring_point
              ⟨0 + decode_zigzag32 a + decode_zigzag32 c + decode_zigzag32 e +
                 decode_zigzag32 g,
               0 + decode_zigzag32 b + decode_zigzag32 d + decode_zigzag32 f +
                 decode_zigzag32 h, 0⟩,
            .ring_point
              ⟨0 + decode_zigzag32 a + decode_zigzag32 c + decode_zigzag32 e,
               0 + decode_zigzag32 b + decode_zigzag32 d + decode_zigzag32 f,
               0⟩,
            .ring_end (classify
              (0 + det
                  ⟨0 + decode_zigzag32 a + decode_zigzag32 c +
                     decode_zigzag32 e,
                   0 + decode_zigzag32 b + decode_zigzag32 d +
                     decode_zigzag32 f, 0⟩
                  ⟨0 + decode_zigzag32 a + decode_zigzag32 c +
                     decode_zigzag32 e + decode_zigzag32 g,
                   0 + decode_zigzag32 b + decode_zigzag32 d +
                     decode_zigzag32 f + decode_zigzag32 h, 0⟩ +
               det ⟨0 + decode_zigzag32 a + decode_zigzag32 c +
                      decode_zigzag32 e + decode_zigzag32 g,
                    0 + decode_zigzag32 b + decode_zigzag32 d +
                      decode_zigzag32 f + decode_zigzag32 h, 0⟩
                  ⟨0 + decode_zigzag32 a + decode_zigzag32 c +
                     decode_zigzag32 e,
                   0 + decode_zigzag32 b + decode_zigzag32 d +
                     decode_zigzag32 f, 0⟩))],
           ⟨[], [], [],
            ⟨0 + decode_zigzag32 a + decode_zigzag32 c + decode_zigzag32 e +
               decode_zigzag32 g,
             0 + decode_zigzag32 b + decode_zigzag32 d + decode_zigzag32 f +
               decode_zigzag32 h, 0⟩,
            7, 0, 2⟩) :=
  ⟨rfl, rfl⟩

/-- Witness for C10 at concrete deltas (+1,+1), (+2,+2), (+1,+1),
(+2,+2): the second linestring/ring continues from (3,3) to (4,4), and
the attribute accumulator built in the first sub-geometry (value 1)
carries into the second (values 3 then 2). -/
theorem C10_cursor_and_attributes_carry_across_witness :
    decode_linestring (P := UnscaledPoint) id 8
        (initState [9, 2, 2, 10, 4, 4, 9, 2, 2, 10, 4, 4] []
          [10, 4, 7, 3, 0, 5, 2] 6 2) =
      .ok ([.linestring_begin 2, .linestring_point ⟨1, 1, 0⟩,
            .attr_value 0 7 1, .linestring_point ⟨3, 3, 0⟩, .attr_null 0,
            .linestring_end, .linestring_begin 2, .linestring_point ⟨4, 4, 0⟩,
            .attr_value 0 7 3, .linestring_point ⟨6, 6, 0⟩,
            .attr_value 0 7 2, .linestring_end],
           ⟨[], [], [10, 4, 7, 3, 0, 5, 2], ⟨6, 6, 0⟩, 6, 0, 2⟩) ∧
    decode_polygon (P := UnscaledPoint) id 8
        (initState [9, 2, 2, 10, 4, 4, 15, 9, 2, 2, 10, 4, 4, 15] [] [] 7 2) =
      .ok ([.ring_begin 3, .ring_point ⟨1, 1, 0⟩, .ring_point ⟨3, 3, 0⟩,
            .ring_point ⟨1, 1, 0⟩, .ring_end RingType.invalid,
            .ring_begin 3, .ring_point ⟨4, 4, 0⟩, .ring_point ⟨6, 6, 0⟩,
            .ring_point ⟨4, 4, 0⟩, .ring_end RingType.invalid],
           ⟨[], [], [], ⟨6, 6, 0⟩, 7, 0, 2⟩) :=
  C10_cursor_and_attributes_carry_across 2 2 4 4 2 2 4 4

end Vtzero
